import Mathlib

/-!
The throttlers of gohalt.

A verification development of `throttler.go`.  Every Go struct is a Lean
structure holding its fields, every method is a function that takes the
receiver (and the context) and returns the returned `error` together with the
receiver after the call.  `uint64` fields are natural numbers and every
`atomic.AddUint64` is an addition modulo `2 ^ 64`.  A finite `float64` value
is the rational number it stands for, and every conversion to `float64` and
every `float64` operation rounds its result to the nearest `float64`, a tie
going to the even one.
-/

universe u

namespace Gohalt

/-! ## Errors and contexts -/

/-- Non-nil Go error values, as built by `errors.New` and `fmt.Errorf`. -/
inductive GoError where
  /-- The value of `errors.New(text)`. -/
  | New (text : String)
  /-- The value of `fmt.Errorf(format, n)` with one integer operand. -/
  | Errorf (format : String) (arg : Nat)
  /-- The value of `fmt.Errorf(format, err)` with one `%w` operand. -/
  | Wrap (format : String) (err : GoError)
  /-- The value of `fmt.Errorf(format, err1, err2)` with two `%w` operands. -/
  | Wrap2 (format : String) (err1 err2 : GoError)
  /-- The value of `fmt.Errorf(format, x1, ..., xn)` with numeric operands. -/
  | Errorfs (format : String) (args : List ℚ)
  deriving DecidableEq, Repr

/-- The Go type `error`: `none` is `nil`. -/
abbrev error := Option GoError

/-- A payload carried by a context for `tenqueue`; strings stand for the
values of type `interface{}`. -/
abbrev Payload := String

/-- The bytes of a marshaled message. -/
abbrev Bytes := List Nat

/-- The function type `Marshaler`: the bytes and the error it returns. -/
abbrev Marshaler := Payload → Bytes × error

/-- The part of a `context.Context` the throttlers of this file look at:
`Err` is the value of `ctx.Err()`, and `ctx.Done()` is closed exactly when it
is not `nil`; `Timestamp` is the attribute set by `WithTimestamp`, in
nanoseconds, `Key` the one set by `WithKey`, `Data` the one set by
`WithMessage` and `Marshaler` the one set by `WithMarshaler`, each when
there is one. -/
structure Context where
  Err : error := none
  Timestamp : Option Int := none
  Key : Option String := none
  Data : Option Payload := none
  Marshaler : Option Marshaler := none

/-- The context `context.Background()`: never cancelled. -/
def Context.Background : Context := {}

/-- The largest `uint64` plus one. -/
def uint64Size : Nat := 2 ^ 64

/-- The effect of `atomic.AddUint64(&x, delta)` on `x`. -/
def AddUint64 (x delta : Nat) : Nat := (x + delta) % uint64Size

/-- The Go expression `^uint64(x)`: bitwise complement of a 64-bit value. -/
def notUint64 (x : Nat) : Nat := uint64Size - 1 - x % uint64Size

/-- The Go expression `x - y` on `uint64` operands. -/
def subUint64 (x y : Nat) : Nat := (x + (uint64Size - y % uint64Size)) % uint64Size

/-! ## `float64` arithmetic -/

/-- The nearest integer to `q`, a tie going to the even one. -/
def roundEven (q : ℚ) : Int :=
  if q - ⌊q⌋ < 1 / 2 then ⌊q⌋
  else if 1 / 2 < q - ⌊q⌋ then ⌊q⌋ + 1
  else if ⌊q⌋ % 2 = 0 then ⌊q⌋ else ⌊q⌋ + 1

/-- The binary exponent of the `float64` binade of `x`: the `e` with
`2 ^ e ≤ |x| < 2 ^ (e + 1)`, and `-1022` for the subnormal numbers below. -/
def float64Exp (x : ℚ) : Int := max (Int.log 2 |x|) (-1022)

/-- The value of type `float64` that a computation with the exact result `x`
yields: `x` rounded to the nearest multiple of `2 ^ (e - 52)`, a tie going to
the even multiple, where `e` is the exponent of the binade of `x` (IEEE 754
binary64, round to nearest even).  It is used for every conversion to
`float64` and every `float64` operation of the sources; the results that
arise there are far below `2 ^ 1024`, where `float64` overflows. -/
def float64 (x : ℚ) : ℚ :=
  (roundEven (x / 2 ^ (float64Exp x - 52)) : ℚ) * 2 ^ (float64Exp x - 52)

/-! ## The `Throttler` interface -/

/-- A value of the interface type `Throttler`: some receiver `state` together
with its two methods.  A method returns its `error` and the receiver after the
call. -/
structure Throttler where
  State : Type u
  state : State
  acquire : State → Context → error × State
  release : State → Context → error × State

/-- The call `thr.Acquire(ctx)` on an interface value. -/
def Throttler.Acquire (thr : Throttler.{u}) (ctx : Context) : error × Throttler.{u} :=
  let r := thr.acquire thr.state ctx
  (r.1, { thr with state := r.2 })

/-- The call `thr.Release(ctx)` on an interface value. -/
def Throttler.Release (thr : Throttler.{u}) (ctx : Context) : error × Throttler.{u} :=
  let r := thr.release thr.state ctx
  (r.1, { thr with state := r.2 })

/-! ## `techo` -/

/-- The struct `techo`. -/
structure techo where
  err : error
  deriving DecidableEq, Repr

def NewThrottlerEcho (err : error) : techo := { err := err }

def techo.Acquire (thr : techo) (_ctx : Context) : error × techo := (thr.err, thr)

def techo.Release (thr : techo) (_ctx : Context) : error × techo := (thr.err, thr)

/-- A `techo` as a `Throttler` interface value. -/
def techo.asThrottler (thr : techo) : Throttler.{0} :=
  { State := techo, state := thr, acquire := techo.Acquire, release := techo.Release }

/-! ## `tall` -/

/-- The slice type `tall`. -/
abbrev tall := List Throttler.{u}

def NewThrottlerAll (thrs : List Throttler.{u}) : tall.{u} := thrs

/-- The `for _, thr := range thrs` loop of `tall.Acquire`, started with the
remaining children and the error aggregated so far. -/
def tall.Acquire.loop (ctx : Context) : List Throttler.{u} → GoError → error × List Throttler.{u}
  | [], err => (some err, [])
  | thr :: rest, err =>
    let r := thr.Acquire ctx
    match r.1 with
    | some threrr =>
      let q := tall.Acquire.loop ctx rest (GoError.Wrap2 "%w %w" err threrr)
      (q.1, r.2 :: q.2)
    | none => (none, r.2 :: rest)

def tall.Acquire (thrs : tall.{u}) (ctx : Context) : error × tall.{u} :=
  tall.Acquire.loop ctx thrs (GoError.New "throttler error has happened")

/-- The `for _, thr := range thrs` loop of `tall.Release`. -/
def tall.Release.loop (ctx : Context) : List Throttler.{u} → GoError → error × List Throttler.{u}
  | [], err => (some err, [])
  | thr :: rest, err =>
    let r := thr.Release ctx
    match r.1 with
    | some threrr =>
      let q := tall.Release.loop ctx rest (GoError.Wrap2 "%w %w" err threrr)
      (q.1, r.2 :: q.2)
    | none => (none, r.2 :: rest)

def tall.Release (thrs : tall.{u}) (ctx : Context) : error × tall.{u} :=
  tall.Release.loop ctx thrs (GoError.New "throttler error has happened")

/-- A `tall` as a `Throttler` interface value. -/
def tall.asThrottler (thrs : tall.{u}) : Throttler.{u+1} :=
  { State := tall.{u}, state := thrs, acquire := tall.Acquire, release := tall.Release }

/-! ## `tany` -/

/-- The slice type `tany`. -/
abbrev tany := List Throttler.{u}

def NewThrottlerAny (thrs : List Throttler.{u}) : tany.{u} := thrs

/-- The collecting goroutine of `tany.Acquire` and `tany.Release`: started
with the initial value of `err`, it rewraps `err` with every error received
over the channel `errs`, in the order received. -/
def tany.collect : GoError → List GoError → GoError
  | err, [] => err
  | err, threrr :: rest => tany.collect (GoError.Wrap2 "%w\n%w" err threrr) rest

/-- The method `tany.Acquire`.  Every child is called once, in a goroutine of
its own, and sends its error, when it has one, over `errs`; the errors are
taken here in list order (the scheduler decides the real order, and the final
read of `err` races with the collector, so the real value wraps a prefix of
some ordering of these errors).  The returned variable `err` starts as the
value of `errors.New` and is only ever assigned values of `fmt.Errorf`. -/
def tany.Acquire (thrs : tany.{u}) (ctx : Context) : error × tany.{u} :=
  let rs := thrs.map (fun thr => thr.Acquire ctx)
  let errs := rs.filterMap (fun r => r.1)
  (some (tany.collect (GoError.New "throttler error has happened") errs), rs.map (fun r => r.2))

/-- The method `tany.Release`, modelled as `tany.Acquire` is. -/
def tany.Release (thrs : tany.{u}) (ctx : Context) : error × tany.{u} :=
  let rs := thrs.map (fun thr => thr.Release ctx)
  let errs := rs.filterMap (fun r => r.1)
  (some (tany.collect (GoError.New "throttler error has happened") errs), rs.map (fun r => r.2))

/-! ## `trevert` -/

/-- The struct `trevert`. -/
structure trevert where
  thr : Throttler.{u}

def NewThrottlerRevert (thr : Throttler.{u}) : trevert.{u} := { thr := thr }

def trevert.Acquire (thr : trevert.{u}) (ctx : Context) : error × trevert.{u} :=
  let r := thr.thr.Acquire ctx
  match r.1 with
  | some _ => (none, { thr := r.2 })
  | none => (some (GoError.New "throttler revert error has happened"), { thr := r.2 })

def trevert.Release (thr : trevert.{u}) (ctx : Context) : error × trevert.{u} :=
  let r := thr.thr.Release ctx
  match r.1 with
  | some _ => (none, { thr := r.2 })
  | none => (some (GoError.New "throttler revert error has happened"), { thr := r.2 })

/-- A `trevert` as a `Throttler` interface value. -/
def trevert.asThrottler (thr : trevert.{u}) : Throttler.{u+1} :=
  { State := trevert.{u}, state := thr, acquire := trevert.Acquire, release := trevert.Release }

/-! ## `tatomic` -/

/-- The struct `tatomic`: `run` is the in-flight count. -/
structure tatomic where
  run : Nat
  max : Nat
  deriving DecidableEq, Repr

def NewThrottlerAtomic (max : Nat) : tatomic := { run := 0, max := max }

def tatomic.Acquire (thr : tatomic) (_ctx : Context) : error × tatomic :=
  if thr.run > thr.max then
    (some (GoError.Errorf "throttler has exceed running limit %d" thr.run), thr)
  else
    (none, { thr with run := AddUint64 thr.run 1 })

def tatomic.Release (thr : tatomic) (_ctx : Context) : error × tatomic :=
  if thr.run ≤ 0 then
    (some (GoError.New "throttler has nothing to release"), thr)
  else
    (none, { thr with run := AddUint64 thr.run (notUint64 0) })

/-- A `*tatomic` as a `Throttler` interface value. -/
def tatomic.asThrottler (thr : tatomic) : Throttler.{0} :=
  { State := tatomic, state := thr, acquire := tatomic.Acquire, release := tatomic.Release }

/-- The errors of `n` sequential calls of `tatomic.Acquire` with no `Release`
in between, in call order, and the receiver after the last call. -/
def tatomic.AcquireN (ctx : Context) : Nat → tatomic → List error × tatomic
  | 0, thr => ([], thr)
  | n + 1, thr =>
    let r := thr.Acquire ctx
    let q := tatomic.AcquireN ctx n r.2
    (r.1 :: q.1, q.2)

/-! ## `tfixed` -/

/-- The struct `tfixed`: `cur` counts the accepted calls. -/
structure tfixed where
  cur : Nat
  max : Nat
  deriving DecidableEq, Repr

def NewThrottlerFixed (max : Nat) : tfixed := { cur := 0, max := max }

def tfixed.Acquire (thr : tfixed) (_ctx : Context) : error × tfixed :=
  if thr.cur > thr.max then
    (some (GoError.Errorf "throttler has exceed fixed limit %d" thr.cur), thr)
  else
    (none, { thr with cur := AddUint64 thr.cur 1 })

def tfixed.Release (thr : tfixed) (_ctx : Context) : error × tfixed := (none, thr)

/-- A `*tfixed` as a `Throttler` interface value. -/
def tfixed.asThrottler (thr : tfixed) : Throttler.{0} :=
  { State := tfixed, state := thr, acquire := tfixed.Acquire, release := tfixed.Release }

/-- The errors of `n` sequential calls of `tfixed.Acquire`, in call order, and
the receiver after the last call. -/
def tfixed.AcquireN (ctx : Context) : Nat → tfixed → List error × tfixed
  | 0, thr => ([], thr)
  | n + 1, thr =>
    let r := thr.Acquire ctx
    let q := tfixed.AcquireN ctx n r.2
    (r.1 :: q.1, q.2)

/-! ## `tbuffered` -/

/-- A value of type `chan struct{}`, seen as a bounded count: `len` tokens are
in the buffer, which holds at most `cap`. -/
structure Chan where
  len : Nat
  cap : Nat
  deriving DecidableEq, Repr

/-- The expression `make(chan struct{}, size)`. -/
def Chan.make (size : Nat) : Chan := { len := 0, cap := size }

/-- The statement `c <- struct{}{}` without a concurrent receiver: `none` when
the buffer is full and the send blocks. -/
def Chan.send (c : Chan) : Option Chan :=
  if c.len < c.cap then some { c with len := c.len + 1 } else none

/-- Whether the case `<-c` of a `select` is ready. -/
def Chan.recvReady (c : Chan) : Bool := decide (0 < c.len)

/-- The channel after a receive `<-c` that was ready. -/
def Chan.recv (c : Chan) : Chan := { c with len := c.len - 1 }

/-- The struct `tbuffered`. -/
structure tbuffered where
  run : Chan
  deriving DecidableEq, Repr

/-- The constructor `NewThrottlerBlocking`, for the sizes that
`make(chan struct{}, size)` accepts: `make` panics on a size of `2 ^ 63` or
more. -/
def NewThrottlerBlocking (size : Nat) : tbuffered := { run := Chan.make size }

/-- The method `tbuffered.Acquire`: `none` while the send blocks, the returned
error and the receiver once it completes. -/
def tbuffered.Acquire (thr : tbuffered) (_ctx : Context) : Option (error × tbuffered) :=
  match thr.run.send with
  | some c => some (none, { thr with run := c })
  | none => none

/-- The method `tbuffered.Release`.  When both the receive and `ctx.Done()`
are ready, `select` takes either: `pick` is that choice (`true`: the receive).
With no case ready the `default` case runs. -/
def tbuffered.Release (thr : tbuffered) (ctx : Context) (pick : Bool) : error × tbuffered :=
  match thr.run.recvReady, ctx.Err with
  | true, none => (none, { thr with run := thr.run.recv })
  | true, some e =>
    if pick then (none, { thr with run := thr.run.recv })
    else (some (GoError.Wrap "throttler context error has occured %w" e), thr)
  | false, some e => (some (GoError.Wrap "throttler context error has occured %w" e), thr)
  | false, none => (some (GoError.New "throttler has nothing to release"), thr)

/-- One call on a `tbuffered`. -/
inductive tbuffered.Call where
  | acquire (ctx : Context)
  | release (ctx : Context) (pick : Bool)

/-- The receiver after a call; a blocked `Acquire` has sent nothing. -/
def tbuffered.step (thr : tbuffered) : tbuffered.Call → tbuffered
  | .acquire ctx => match thr.Acquire ctx with
    | some r => r.2
    | none => thr
  | .release ctx pick => (thr.Release ctx pick).2

/-- The receiver after a sequence of calls. -/
def tbuffered.steps (thr : tbuffered) (calls : List tbuffered.Call) : tbuffered :=
  calls.foldl tbuffered.step thr

/-! ## `ttimed` -/

/-- The conversion `time.Duration(slide)` of a `uint64` to the signed 64-bit
type `time.Duration`. -/
def DurationOfUint64 (slide : Nat) : Int :=
  if slide % uint64Size < 2 ^ 63 then (slide % uint64Size : Nat) else (slide % uint64Size : Nat) - 2 ^ 64

/-- The variable `delta` of `NewThrottlerTimed` when the decay loop starts;
`window` is the `time.Duration` in nanoseconds.  In the branch taken for a
slide inside the window it is `uint64(math.Ceil(float64(delta) /
float64(slide)))`, with both conversions and the quotient rounded to
`float64`; a ceiling of `2 ^ 64`, which only `max` above `2 ^ 64 - 1025` with
`slide = 1` reach and whose conversion Go leaves to the implementation, is
kept as it is. -/
def NewThrottlerTimed.delta (max : Nat) (window : Int) (slide : Nat) : Nat :=
  if slide > 0 ∧ window > DurationOfUint64 slide then
    (⌈float64 (float64 (max : ℚ) / float64 (slide : ℚ))⌉).toNat
  else max

/-- The body of the function that `NewThrottlerTimed` hands to `loop`: one
decay tick on the wrapped `tfixed`.  The test `cur < 0` is on a `uint64`. -/
def NewThrottlerTimed.tick (delta : Nat) (thr : tfixed) : tfixed :=
  let thr1 : tfixed := { thr with cur := AddUint64 thr.cur (notUint64 (subUint64 delta 1)) }
  if thr1.cur < 0 then { thr1 with cur := 0 } else thr1

/-! ## `teach` -/

/-- The struct `teach`. -/
structure teach where
  cur : Nat
  num : Nat
  deriving DecidableEq, Repr

def NewThrottlerEach (num : Nat) : teach := { cur := 0, num := num }

/-- The method `teach.Acquire`; `num` is not zero (the remainder by zero is a
run-time panic in Go). -/
def teach.Acquire (thr : teach) (_ctx : Context) : error × teach :=
  let thr1 : teach := { thr with cur := AddUint64 thr.cur 1 }
  if thr1.cur % thr1.num = 0 then
    (some (GoError.Errorf "throttler has reached periodic skip %d" thr1.cur), thr1)
  else
    (none, thr1)

def teach.Release (thr : teach) (_ctx : Context) : error × teach := (none, thr)

/-- A `*teach` as a `Throttler` interface value. -/
def teach.asThrottler (thr : teach) : Throttler.{0} :=
  { State := teach, state := thr, acquire := teach.Acquire, release := teach.Release }

/-- The errors of the `Acquire` calls of `n` sequential steps, each an
`Acquire` followed by a `Release`, and the receiver after the last step. -/
def teach.AcquireReleaseN (ctx : Context) : Nat → teach → List error × teach
  | 0, thr => ([], thr)
  | n + 1, thr =>
    let a := thr.Acquire ctx
    let r := a.2.Release ctx
    let q := teach.AcquireReleaseN ctx n r.2
    (a.1 :: q.1, q.2)

/-! ## `tafter` -/

/-- The struct `tafter`. -/
structure tafter where
  cur : Nat
  num : Nat
  deriving DecidableEq, Repr

def NewThrottlerAfter (num : Nat) : tafter := { cur := 0, num := num }

def tafter.Acquire (thr : tafter) (_ctx : Context) : error × tafter :=
  let thr1 : tafter := { thr with cur := AddUint64 thr.cur 1 }
  if thr1.cur < thr1.num then
    (some (GoError.Errorf "throttler has not reached pass yet %d" thr1.cur), thr1)
  else
    (none, thr1)

def tafter.Release (thr : tafter) (_ctx : Context) : error × tafter := (none, thr)

/-- A `*tafter` as a `Throttler` interface value. -/
def tafter.asThrottler (thr : tafter) : Throttler.{0} :=
  { State := tafter, state := thr, acquire := tafter.Acquire, release := tafter.Release }

/-- The errors of the `Acquire` calls of `n` sequential steps, each an
`Acquire` followed by a `Release`, and the receiver after the last step. -/
def tafter.AcquireReleaseN (ctx : Context) : Nat → tafter → List error × tafter
  | 0, thr => ([], thr)
  | n + 1, thr =>
    let a := thr.Acquire ctx
    let r := a.2.Release ctx
    let q := tafter.AcquireReleaseN ctx n r.2
    (a.1 :: q.1, q.2)

/-! ## `tpriority` -/

/-- The Go expression `x * y` on `uint64` operands. -/
def mulUint64 (x y : Nat) : Nat := (x * y) % uint64Size

/-- Run-time panics of the Go runtime. -/
inductive GoPanic where
  /-- The panic `assignment to entry in nil map`. -/
  | assignNilMap
  /-- The panic `makechan: size out of range`. -/
  | makechanSize
  deriving DecidableEq, Repr

/-- The struct `tpriority` without its mutex.  The field `run` is a Go map
from `uint8` to channels: `none` is the nil map, the zero value of a map
field that no `make` or literal has set. -/
structure tpriority where
  run : Option (List (Nat × Chan))
  lim : Nat
  deriving DecidableEq, Repr

/-- The variable `sum` of `NewThrottlerBlockingPriority`:
`float64(priority) / 2 * float64(2 + (priority - 1))`, where the inner
arithmetic is on `uint8` values; the product is a whole number, and it is 0
when `2 + (priority - 1)` wraps at `priority = 255`. -/
def NewThrottlerBlockingPriority.sum (priority : Nat) : Nat :=
  priority * ((2 + (priority + 255) % 256) % 256) / 2

/-- The variable `koef` of `NewThrottlerBlockingPriority`:
`uint64(math.Ceil(float64(size) / sum))`, with the conversion of `size` and
the quotient rounded to `float64`.  For `sum = 0` the quotient is infinite or
not a number, and for `size` above `2 ^ 64 - 1025` with `sum = 1` the ceiling
is `2 ^ 64`; Go leaves the value of these conversions to the implementation:
`ovf` is that value. -/
def NewThrottlerBlockingPriority.koef (size priority ovf : Nat) : Nat :=
  if NewThrottlerBlockingPriority.sum priority = 0 then ovf
  else if ⌈float64 (float64 (size : ℚ) / (NewThrottlerBlockingPriority.sum priority : ℚ))⌉ <
      2 ^ 64 then
    (⌈float64 (float64 (size : ℚ) / (NewThrottlerBlockingPriority.sum priority : ℚ))⌉).toNat
  else ovf

/-- The capacity `uint64(i)*koef` that the loop of
`NewThrottlerBlockingPriority` hands to `make` for the queue of priority `i`. -/
def NewThrottlerBlockingPriority.capacity (koef i : Nat) : Nat := mulUint64 i koef

/-- The loop `for i := uint8(1); i <= priority; i++` of
`NewThrottlerBlockingPriority`, entered at `i` with at most `fuel` iterations
left to run: `none` when they do not suffice, else the panic that ended the
loop or the receiver it built.  `make` panics on a size that is negative as
an `int`, and the assignment `thr.run[i] = ...` panics on a nil map. -/
def NewThrottlerBlockingPriority.loop (koef priority : Nat) :
    Nat → Nat → tpriority → Option (Except GoPanic tpriority)
  | 0, _, _ => none
  | fuel + 1, i, thr =>
    if i ≤ priority then
      let size := NewThrottlerBlockingPriority.capacity koef i
      if 2 ^ 63 ≤ size then some (Except.error GoPanic.makechanSize)
      else
        match thr.run with
        | none => some (Except.error GoPanic.assignNilMap)
        | some m =>
          NewThrottlerBlockingPriority.loop koef priority fuel ((i + 1) % 256)
            { thr with run := some ((i, Chan.make size) :: m.filter (fun e => e.1 ≠ i)) }
    else some (Except.ok thr)

/-- The constructor `NewThrottlerBlockingPriority(size, priority)`, given
`fuel` iterations for its loop. -/
def NewThrottlerBlockingPriority (size priority ovf fuel : Nat) :
    Option (Except GoPanic tpriority) :=
  let priority := if priority = 0 then 1 else priority
  let thr : tpriority := { run := none, lim := priority }
  let koef := NewThrottlerBlockingPriority.koef size priority ovf
  NewThrottlerBlockingPriority.loop koef priority fuel 1 thr

/-- The ceiling `⌈a / b⌉` of a quotient of natural numbers, `b` not zero. -/
def ceilDiv (a b : Nat) : Nat := (a + b - 1) / b

/-- The sum `1 + 2 + … + levels`. -/
def sumUpTo (levels : Nat) : Nat := ((List.range (levels + 1)).map (fun j => j)).sum

/-! ## `ttimed` and `tadaptive` -/

/-- The struct `ttimed`; the field `tfixed` is the `tfixed` its embedded
pointer points to. -/
structure ttimed where
  tfixed : tfixed
  wnd : Int
  sld : Nat
  deriving DecidableEq, Repr

/-- The value returned by `NewThrottlerTimed(ctx, max, window, slide)`.  The
call also starts the decay loop, whose ticks are `NewThrottlerTimed.tick` with
the step `NewThrottlerTimed.delta max window slide`. -/
def NewThrottlerTimed (_ctx : Context) (max : Nat) (window : Int) (slide : Nat) : ttimed :=
  { tfixed := NewThrottlerFixed max, wnd := window, sld := slide }

def ttimed.Acquire (thr : ttimed) (ctx : Context) : error × ttimed :=
  let r := thr.tfixed.Acquire ctx
  (r.1, { thr with tfixed := r.2 })

def ttimed.Release (thr : ttimed) (ctx : Context) : error × ttimed :=
  let r := thr.tfixed.Release ctx
  (r.1, { thr with tfixed := r.2 })

/-- The struct `tadaptive`. -/
structure tadaptive where
  ttimed : ttimed
  step : Nat
  thr : Throttler.{u}

def NewThrottlerAdaptive (ctx : Context) (max : Nat) (window : Int) (slide : Nat) (step : Nat)
    (thr : Throttler.{u}) : tadaptive.{u} :=
  { ttimed := NewThrottlerTimed ctx max window slide, step := step, thr := thr }

/-- The value of `thr.ttimed.max` after the `atomic.AddUint64` of
`tadaptive.Acquire`, given the error `err` of the probe. -/
def tadaptive.Acquire.max (max step : Nat) (err : error) : Nat :=
  match err with
  | some _ => AddUint64 max (notUint64 (mulUint64 step step))
  | none => AddUint64 max step

def tadaptive.Acquire (thr : tadaptive.{u}) (ctx : Context) : error × tadaptive.{u} :=
  let r := thr.thr.Acquire ctx
  let timed : Gohalt.ttimed :=
    { thr.ttimed with
      tfixed := { thr.ttimed.tfixed with
        max := tadaptive.Acquire.max thr.ttimed.tfixed.max thr.step r.1 } }
  let q := timed.Acquire ctx
  (q.1, { thr with ttimed := q.2, thr := r.2 })

def tadaptive.Release (thr : tadaptive.{u}) (ctx : Context) : error × tadaptive.{u} :=
  let q := thr.ttimed.Release ctx
  (q.1, { thr with ttimed := q.2 })

/-- The errors of `n` sequential calls of `tadaptive.Acquire` with no decay
tick in between, in call order, and the receiver after the last call. -/
def tadaptive.AcquireN (ctx : Context) : Nat → tadaptive.{u} → List error × tadaptive.{u}
  | 0, thr => ([], thr)
  | n + 1, thr =>
    let r := thr.Acquire ctx
    let q := tadaptive.AcquireN ctx n r.2
    (r.1 :: q.1, q.2)

/-! ## `tlatency` -/

/-- The conversion `uint64(x)` of a signed 64-bit value; it is also the
conversion of the wrapped result of a signed 64-bit operation whose exact
value is `x`. -/
def uint64OfInt (x : Int) : Nat := (x % (2 ^ 64 : Int)).toNat

/-- Modelled from the spec: `ctxTimestamp`, of the file `context.go` that is
not among the sources: the timestamp attribute of the context in
nanoseconds, the zero value when the context carries none. -/
def ctxTimestamp (ctx : Context) : Int := ctx.Timestamp.getD 0

/-- The struct `tlatency`. -/
structure tlatency where
  lat : Nat
  max : Nat
  ret : Int
  deriving DecidableEq, Repr

def NewThrottlerLatency (max : Int) (retention : Int) : tlatency :=
  { lat := 0, max := uint64OfInt max, ret := retention }

def tlatency.Acquire (thr : tlatency) (_ctx : Context) : error × tlatency :=
  if thr.lat > thr.max then
    (some (GoError.Errorf "throttler has exceed latency limit %s" thr.lat), thr)
  else
    (none, thr)

/-- The inner variable `lat` of `tlatency.Release`, the observed sample:
`uint64(ctxTimestamp(ctx) - time.Now().UTC().UnixNano())`, where `now` is the
clock reading `time.Now().UTC().UnixNano()`. -/
def tlatency.Release.lat (ctx : Context) (now : Int) : Nat :=
  uint64OfInt (ctxTimestamp ctx - now)

/-- The method `tlatency.Release` at the clock reading `now`: the returned
error, the receiver after the call, and whether `once` was called to schedule
the reset of `lat` to 0 after the retention. -/
def tlatency.Release (thr : tlatency) (ctx : Context) (now : Int) : error × tlatency × Bool :=
  if thr.lat < thr.max then
    let lat := tlatency.Release.lat ctx now
    let thr1 : tlatency := if lat > thr.lat then { thr with lat := lat } else thr
    (none, thr1, true)
  else
    (none, thr, false)

/-! ## `tchance` -/

/-- The struct `tchance`.  The `float64` field is the rational number it
stands for (not a number and the infinities are left out). -/
structure tchance where
  pos : ℚ

def NewThrottlerChance (possibillity : ℚ) : tchance :=
  let possibillity := |possibillity|
  { pos := if possibillity > 1 then 1 else possibillity }

/-- The method `tchance.Acquire`; `rnd` is the value of `rand.Float64()`, a
number of the interval `[0, 1)`, and `1.0 - rnd` is rounded to `float64`. -/
def tchance.Acquire (thr : tchance) (_ctx : Context) (rnd : ℚ) : error × tchance :=
  if thr.pos > float64 (1 - rnd) then
    (some (GoError.New "throttler has missed a chance"), thr)
  else
    (none, thr)

def tchance.Release (thr : tchance) (_ctx : Context) : error × tchance := (none, thr)

/-! ## `tpercentile` -/

/-- Modelled from the spec: the type `latheap`, declared outside the sources:
the heap of observed latency samples, as its underlying array. -/
abbrev latheap := List Nat

/-- The method `Len` of `heap.Interface` on a `latheap`. -/
def latheap.Len (lat : latheap) : Nat := lat.length

/-- The function `math.Round`: the nearest integer, halves away from zero. -/
def mathRound (x : ℚ) : Int := if 0 ≤ x then ⌊x + 1 / 2⌋ else -⌊-x + 1 / 2⌋

/-- The struct `tpercentile` without its mutex. -/
structure tpercentile where
  lat : latheap
  max : Nat
  pnt : ℚ
  ret : Int

def NewThrottlerPercentile (max : Int) (percentile : ℚ) (retention : Int) : tpercentile :=
  let percentile := |percentile|
  { lat := [], max := uint64OfInt max, pnt := if percentile > 1 then 1 else percentile,
    ret := retention }

/-- The variable `pos` of `tpercentile.Acquire`:
`int(math.Round(size * thr.pnt))` with `size := float64(thr.lat.Len())`; the
conversion and the product are rounded to `float64`. -/
def tpercentile.Acquire.pos (thr : tpercentile) : Int :=
  mathRound (float64 (float64 (thr.lat.Len : ℚ) * thr.pnt))

/-- The method `tpercentile.Acquire`: the returned error, the receiver, and
whether `once` was called to schedule the reset of the heap.  The method `At`
of `latheap` is not among the sources and is a parameter. -/
def tpercentile.Acquire (At : latheap → Int → Nat) (thr : tpercentile) (_ctx : Context) :
    error × tpercentile × Bool :=
  let lat := At thr.lat (tpercentile.Acquire.pos thr)
  if lat > thr.max then
    (some (GoError.Errorf "throttler has exceed latency limit %s" lat), thr, true)
  else
    (none, thr, false)

/-! ## `tstats` -/

/-- The interface `Stats`, declared outside the sources, as the reading
`(alloc, system, avgpause, usage)` its method `Stats()` returns. -/
structure Stats where
  stats : Nat × Nat × Nat × ℚ

/-- The struct `tstats`. -/
structure tstats where
  stats : Stats
  alloc : Nat
  system : Nat
  avgpause : Nat
  avgusage : ℚ

def NewThrottlerStats (stats : Stats) (alloc system avgpause : Nat) (avgusage : ℚ) : tstats :=
  { stats := stats, alloc := alloc, system := system, avgpause := avgpause,
    avgusage := avgusage }

def tstats.Acquire (thr : tstats) (_ctx : Context) : error × tstats :=
  let alloc := thr.stats.stats.1
  let system := thr.stats.stats.2.1
  let avgpause := thr.stats.stats.2.2.1
  let usage := thr.stats.stats.2.2.2
  if alloc ≥ thr.alloc ∨ system ≥ thr.system ∨ avgpause ≥ thr.avgpause ∨
      usage ≥ thr.avgusage then
    (some (GoError.Errorfs
      "throttler has exceed stats limits\nalloc %d mb, system %d mb, avg gc cpu pause %s, avg cpu usage %.2f%%"
      [((alloc / 1024 : Nat) : ℚ), ((system / 1024 : Nat) : ℚ), (avgpause : ℚ), usage]), thr)
  else
    (none, thr)

def tstats.Release (thr : tstats) (_ctx : Context) : error × tstats := (none, thr)

/-! ## `tenqueue` -/

/-- Modelled from the spec: `ctxMarshaler`, of the file `context.go` that is
not among the sources: the marshaler attribute of the context, nil when the
context carries none. -/
def ctxMarshaler (ctx : Context) : Option Marshaler := ctx.Marshaler

/-- Modelled from the spec: `ctxData`, of the file `context.go` that is not
among the sources: the payload attribute of the context, nil when the
context carries none. -/
def ctxData (ctx : Context) : Option Payload := ctx.Data

/-- A value of the interface type `Enqueuer`, declared outside the sources:
some receiver `state` with its method `Publish`, which returns its `error`
and the receiver after the call. -/
structure Enqueuer where
  State : Type u
  state : State
  publish : State → Context → Bytes → error × State

/-- The call `enq.Publish(ctx, message)` on an interface value. -/
def Enqueuer.Publish (enq : Enqueuer.{u}) (ctx : Context) (message : Bytes) :
    error × Enqueuer.{u} :=
  let r := enq.publish enq.state ctx message
  (r.1, { enq with state := r.2 })

/-- The struct `tenqueue`. -/
structure tenqueue where
  enq : Enqueuer.{u}

def NewThrottlerEnqueue (enqueuer : Enqueuer.{u}) : tenqueue.{u} := { enq := enqueuer }

def tenqueue.Acquire (thr : tenqueue.{u}) (ctx : Context) : error × tenqueue.{u} :=
  match ctxMarshaler ctx, ctxData ctx with
  | some marshaler, some data =>
    let r := marshaler data
    match r.2 with
    | some err => (some (GoError.Wrap "throttler can't enqueue %w" err), thr)
    | none =>
      let p := thr.enq.Publish ctx r.1
      match p.1 with
      | some err => (some (GoError.Wrap "throttler can't enqueue %w" err), { enq := p.2 })
      | none => (none, { enq := p.2 })
  | _, _ => (some (GoError.New "throttler can't find any data"), thr)

def tenqueue.Release (thr : tenqueue.{u}) (_ctx : Context) : error × tenqueue.{u} := (none, thr)

/-! ## `tkeyed` -/

/-- Modelled from the spec: `ctxKey`, of the file `context.go` that is not
among the sources: the key attribute of the context, nil when the context
carries none. -/
def ctxKey (ctx : Context) : Option String := ctx.Key

/-- A value of the function type `NewThrottler`, `func() Throttler`: a closure
with its captured `state`; a call returns the new throttler and the closure
after the call. -/
structure NewThrottler where
  State : Type u
  state : State
  call : State → Throttler.{u} × State

/-- The call `newthr()`. -/
def NewThrottler.Call (newthr : NewThrottler.{u}) : Throttler.{u} × NewThrottler.{u} :=
  let r := newthr.call newthr.state
  (r.1, { newthr with state := r.2 })

/-- A `sync.Map` from keys to throttlers, as the list of its entries. -/
abbrev SyncMap := List (String × Throttler.{u})

/-- The method `Load` of `sync.Map`. -/
def SyncMap.Load : SyncMap.{u} → String → Option Throttler.{u}
  | [], _ => none
  | e :: rest, key => if e.1 = key then some e.2 else SyncMap.Load rest key

/-- The map with the entry of `key` set to `value`: in place when the key is
present, as a new entry when it is not. -/
def SyncMap.set : SyncMap.{u} → String → Throttler.{u} → SyncMap.{u}
  | [], key, value => [(key, value)]
  | e :: rest, key, value =>
    if e.1 = key then (key, value) :: rest else e :: SyncMap.set rest key value

/-- The method `LoadOrStore` of `sync.Map`: the entry of `key` when there is
one, else `value`, which is then stored; and the map afterwards. -/
def SyncMap.LoadOrStore (m : SyncMap.{u}) (key : String) (value : Throttler.{u}) :
    Throttler.{u} × SyncMap.{u} :=
  match SyncMap.Load m key with
  | some r => (r, m)
  | none => (value, SyncMap.set m key value)

/-- The struct `tkeyed`. -/
structure tkeyed where
  store : SyncMap.{u}
  newthr : NewThrottler.{u}

def NewThrottlerKeyed (newthr : NewThrottler.{u}) : tkeyed.{u} :=
  { store := [], newthr := newthr }

/-- The method `tkeyed.Acquire`.  The argument `thr.newthr()` of `LoadOrStore`
is evaluated before the call; the throttler that `LoadOrStore` returns is the
stored one, so its state after `Acquire` is the state of the entry. -/
def tkeyed.Acquire (thr : tkeyed.{u}) (ctx : Context) : error × tkeyed.{u} :=
  match ctxKey ctx with
  | some key =>
    let f := thr.newthr.Call
    let l := SyncMap.LoadOrStore thr.store key f.1
    let a := l.1.Acquire ctx
    (a.1, { store := SyncMap.set l.2 key a.2, newthr := f.2 })
  | none => (some (GoError.New "throttler can't find any key"), thr)

def tkeyed.Release (thr : tkeyed.{u}) (ctx : Context) : error × tkeyed.{u} :=
  match ctxKey ctx with
  | some key =>
    match SyncMap.Load thr.store key with
    | some r =>
      let a := r.Release ctx
      (a.1, { thr with store := SyncMap.set thr.store key a.2 })
    | none => (some (GoError.New "throttler has nothing to release"), thr)
  | none => (some (GoError.New "throttler can't find any key"), thr)

/-- One call on a `tkeyed`. -/
inductive tkeyed.Call where
  | acquire (ctx : Context)
  | release (ctx : Context)

/-- The context of a call. -/
def tkeyed.Call.ctx : tkeyed.Call → Context
  | .acquire ctx => ctx
  | .release ctx => ctx

/-- The receiver after a call. -/
def tkeyed.step (thr : tkeyed.{u}) : tkeyed.Call → tkeyed.{u}
  | .acquire ctx => (thr.Acquire ctx).2
  | .release ctx => (thr.Release ctx).2

/-- The receiver after a sequence of calls. -/
def tkeyed.steps (thr : tkeyed.{u}) (calls : List tkeyed.Call) : tkeyed.{u} :=
  calls.foldl tkeyed.step thr

/-- The throttler `thr` after a call with context `ctx`. -/
def tkeyed.Call.apply (thr : Throttler.{u}) : tkeyed.Call → Throttler.{u}
  | .acquire ctx => (thr.Acquire ctx).2
  | .release ctx => (thr.Release ctx).2

/-- The closure `newthr` after `n` calls. -/
def NewThrottler.CallN : Nat → NewThrottler.{u} → NewThrottler.{u}
  | 0, newthr => newthr
  | n + 1, newthr => NewThrottler.CallN n newthr.Call.2

/-- A factory that numbers its products: its call number `n`, counted from 0,
returns an echo throttler of the error `product n`. -/
def NewThrottler.numbered : NewThrottler.{0} :=
  { State := Nat, state := 0,
    call := fun n => ((NewThrottlerEcho (some (GoError.Errorf "product %d" n))).asThrottler,
      n + 1) }

/-- The errors of sequential calls of `tkeyed.Acquire`, one for each context
of the list, in call order, and the receiver after the last call. -/
def tkeyed.AcquireAll : List Context → tkeyed.{u} → List error × tkeyed.{u}
  | [], thr => ([], thr)
  | ctx :: rest, thr =>
    let r := thr.Acquire ctx
    let q := tkeyed.AcquireAll rest r.2
    (r.1 :: q.1, q.2)

/-- The keys carried by the contexts of a list. -/
def keysOf (ctxs : List Context) : List String := ctxs.filterMap ctxKey

/-! ## Theorems -/

/-! ### Arithmetic of `float64` -/

theorem roundEven_intCast (n : Int) : roundEven (n : ℚ) = n := by
  unfold roundEven
  simp

theorem roundEven_sub_le (q : ℚ) : |(roundEven q : ℚ) - q| ≤ 1 / 2 := by
  have h1 : (⌊q⌋ : ℚ) ≤ q := Int.floor_le q
  have h2 : q < ⌊q⌋ + 1 := Int.lt_floor_add_one q
  unfold roundEven
  split_ifs with ha hb hc
  · rw [abs_le]; constructor <;> linarith
  · push_cast; rw [abs_le]; constructor <;> linarith
  · rw [abs_le]; constructor <;> linarith
  · push_cast; rw [abs_le]; constructor <;> linarith

theorem roundEven_nonneg (q : ℚ) (hq : 0 ≤ q) : 0 ≤ roundEven q := by
  have h0 : 0 ≤ ⌊q⌋ := Int.floor_nonneg.mpr hq
  unfold roundEven
  split_ifs <;> omega

theorem float64Exp_eq (x : ℚ) (e : Int) (hlo : (2 : ℚ) ^ e ≤ |x|) (hhi : |x| < (2 : ℚ) ^ (e + 1))
    (he : -1022 ≤ e) : float64Exp x = e := by
  have hpos : 0 < |x| := lt_of_lt_of_le (zpow_pos (by norm_num) e) hlo
  have h1 : e ≤ Int.log 2 |x| := (Int.zpow_le_iff_le_log (by norm_num) hpos).mp (by exact_mod_cast hlo)
  have h2 : Int.log 2 |x| < e + 1 := (Int.lt_zpow_iff_log_lt (by norm_num) hpos).mp (by exact_mod_cast hhi)
  unfold float64Exp
  omega

theorem float64_eq_of_exp (x : ℚ) (e : Int) (hlo : (2 : ℚ) ^ e ≤ |x|)
    (hhi : |x| < (2 : ℚ) ^ (e + 1)) (he : -1022 ≤ e) :
    float64 x = (roundEven (x / 2 ^ (e - 52)) : ℚ) * 2 ^ (e - 52) := by
  unfold float64
  rw [float64Exp_eq x e hlo hhi he]

theorem float64_eq_of_exp_pos (x : ℚ) (e : Int) (hlo : (2 : ℚ) ^ e ≤ x)
    (hhi : x < (2 : ℚ) ^ (e + 1)) (he : -1022 ≤ e) :
    float64 x = (roundEven (x / 2 ^ (e - 52)) : ℚ) * 2 ^ (e - 52) := by
  have hpos : 0 < x := lt_of_lt_of_le (zpow_pos (by norm_num) e) hlo
  have habs : |x| = x := abs_of_pos hpos
  exact float64_eq_of_exp x e (habs.symm ▸ hlo) (habs.symm ▸ hhi) he

theorem float64_zero : float64 0 = 0 := by
  simp [float64, roundEven]

theorem float64_nonneg (x : ℚ) (hx : 0 ≤ x) : 0 ≤ float64 x := by
  unfold float64
  have hu : (0 : ℚ) < 2 ^ (float64Exp x - 52) := zpow_pos (by norm_num) _
  have hq : 0 ≤ x / 2 ^ (float64Exp x - 52) := div_nonneg hx (le_of_lt hu)
  have hr : (0 : ℚ) ≤ (roundEven (x / 2 ^ (float64Exp x - 52)) : ℚ) := by
    exact_mod_cast roundEven_nonneg _ hq
  exact mul_nonneg hr (le_of_lt hu)

/-- A natural number below `2 ^ 53` is a `float64`. -/
theorem float64_natCast (n : Nat) (hn : n < 2 ^ 53) : float64 (n : ℚ) = n := by
  rcases Nat.eq_zero_or_pos n with h0 | hpos
  · subst h0
    simpa using float64_zero
  · have hlog : Nat.log 2 n < 53 := Nat.log_lt_of_lt_pow (by omega) hn
    have hexp : float64Exp (n : ℚ) = (Nat.log 2 n : Int) := by
      unfold float64Exp
      rw [abs_of_nonneg (Nat.cast_nonneg n), Int.log_natCast]
      omega
    unfold float64
    rw [hexp]
    have hz : (2 : ℚ) ^ ((Nat.log 2 n : Int) - 52) = ((2 : ℚ) ^ (52 - Nat.log 2 n))⁻¹ := by
      rw [show ((Nat.log 2 n : Int) - 52) = -((52 - Nat.log 2 n : Nat) : Int) by omega,
        zpow_neg, zpow_natCast]
    rw [hz]
    have hk : (0 : ℚ) < (2 : ℚ) ^ (52 - Nat.log 2 n) := pow_pos (by norm_num) _
    have hq : (n : ℚ) / ((2 : ℚ) ^ (52 - Nat.log 2 n))⁻¹ =
        (((n * 2 ^ (52 - Nat.log 2 n) : Nat) : Int) : ℚ) := by
      push_cast
      field_simp
    rw [hq, roundEven_intCast]
    push_cast
    field_simp

/-- The relative error of rounding to `float64` is at most `2 ^ -53`. -/
theorem float64_sub_le (x : ℚ) (hx : (2 : ℚ) ^ (-1022 : Int) ≤ x) :
    |float64 x - x| ≤ x / 2 ^ 53 := by
  have hpos : 0 < x := lt_of_lt_of_le (zpow_pos (by norm_num) _) hx
  have habs : |x| = x := abs_of_pos hpos
  have hlog : (2 : ℚ) ^ Int.log 2 x ≤ x := by
    have := Int.zpow_log_le_self (b := 2) (r := x) (by norm_num) hpos
    exact_mod_cast this
  have hge : (-1022 : Int) ≤ Int.log 2 x :=
    (Int.zpow_le_iff_le_log (by norm_num) hpos).mp (by exact_mod_cast hx)
  have hexp : float64Exp x = Int.log 2 x := by
    unfold float64Exp
    rw [habs]
    omega
  unfold float64
  rw [hexp]
  have hu : (0 : ℚ) < 2 ^ (Int.log 2 x - 52) := zpow_pos (by norm_num) _
  have hr := roundEven_sub_le (x / 2 ^ (Int.log 2 x - 52))
  have heq : (roundEven (x / 2 ^ (Int.log 2 x - 52)) : ℚ) * 2 ^ (Int.log 2 x - 52) - x =
      ((roundEven (x / 2 ^ (Int.log 2 x - 52)) : ℚ) - x / 2 ^ (Int.log 2 x - 52)) *
        2 ^ (Int.log 2 x - 52) := by
    field_simp
  rw [heq, abs_mul, abs_of_pos hu]
  have hsplit : (2 : ℚ) ^ (Int.log 2 x - 52) = 2 ^ Int.log 2 x / 2 ^ 52 := by
    rw [zpow_sub₀ (by norm_num : (2 : ℚ) ≠ 0)]
    norm_num
  calc |(roundEven (x / 2 ^ (Int.log 2 x - 52)) : ℚ) - x / 2 ^ (Int.log 2 x - 52)| *
        2 ^ (Int.log 2 x - 52)
      ≤ 1 / 2 * 2 ^ (Int.log 2 x - 52) := mul_le_mul_of_nonneg_right hr (le_of_lt hu)
    _ = 2 ^ Int.log 2 x / 2 ^ 53 := by
        rw [hsplit]
        ring
    _ ≤ x / 2 ^ 53 := div_le_div_of_nonneg_right hlog (by norm_num)

/-- For operands below `2 ^ 53` the ceiling of the `float64` quotient is the
ceiling of the exact quotient. -/
theorem ceil_float64_div (a b : Nat) (hb : 0 < b) (ha : a < 2 ^ 53) (hb2 : b < 2 ^ 53) :
    ⌈float64 ((a : ℚ) / (b : ℚ))⌉ = (ceilDiv a b : Int) := by
  have hbq : (0 : ℚ) < (b : ℚ) := by exact_mod_cast hb
  rcases Nat.eq_zero_or_pos a with h0 | hapos
  · subst h0
    have hc : ceilDiv 0 b = 0 := by
      unfold ceilDiv
      exact Nat.div_eq_of_lt (by omega)
    rw [hc]
    simp [float64_zero]
  · have hmul : ceilDiv a b * b ≤ a + b - 1 := by
      unfold ceilDiv
      exact Nat.div_mul_le_self _ _
    have hlt : a + b - 1 < b * (ceilDiv a b + 1) := by
      unfold ceilDiv
      exact Nat.lt_mul_div_succ _ hb
    have hcpos : 1 ≤ ceilDiv a b := by
      unfold ceilDiv
      exact (Nat.one_le_div_iff hb).mpr (by omega)
    have hlow : (ceilDiv a b - 1) * b + 1 ≤ a := by
      have : (ceilDiv a b - 1) * b = ceilDiv a b * b - b := by
        rw [Nat.sub_mul, Nat.one_mul]
      have hge : b ≤ ceilDiv a b * b := Nat.le_mul_of_pos_left b hcpos
      omega
    have hup : a ≤ ceilDiv a b * b := by
      rw [Nat.mul_add, Nat.mul_one, Nat.mul_comm] at hlt
      omega
    have hx1 : (2 : ℚ) ^ (-1022 : Int) ≤ (a : ℚ) / (b : ℚ) := by
      have h1 : (1 : ℚ) / 2 ^ 53 ≤ (a : ℚ) / (b : ℚ) := by
        rw [div_le_div_iff₀ (by norm_num) hbq]
        have : (b : ℚ) ≤ (a : ℚ) * 2 ^ 53 := by
          have hb3 : (b : ℚ) ≤ 2 ^ 53 := by exact_mod_cast le_of_lt hb2
          have ha1 : (1 : ℚ) ≤ (a : ℚ) := by exact_mod_cast hapos
          nlinarith
        linarith
      refine le_trans ?_ h1
      rw [show (-1022 : Int) = -((1022 : Nat) : Int) by norm_num, zpow_neg, zpow_natCast]
      rw [one_div]
      apply inv_anti₀ (by positivity)
      exact pow_le_pow_right₀ (by norm_num) (by norm_num)
    have herr := float64_sub_le _ hx1
    rw [abs_le] at herr
    have hsmall : (a : ℚ) / (b : ℚ) / 2 ^ 53 < 1 / (b : ℚ) := by
      rw [div_div, div_lt_div_iff₀ (by positivity) hbq]
      have ha2 : (a : ℚ) < 2 ^ 53 := by exact_mod_cast ha
      nlinarith
    have hlowq : ((ceilDiv a b : ℚ) - 1) + 1 / (b : ℚ) ≤ (a : ℚ) / (b : ℚ) := by
      rw [le_div_iff₀ hbq]
      have : (((ceilDiv a b - 1) * b + 1 : Nat) : ℚ) ≤ (a : ℚ) := by exact_mod_cast hlow
      push_cast [Nat.cast_sub hcpos] at this
      field_simp
      linarith
    rw [Int.ceil_eq_iff]
    push_cast
    constructor
    · linarith [herr.1]
    · rcases Nat.lt_or_ge a (ceilDiv a b * b) with hlt2 | hge2
      · have hupq : (a : ℚ) / (b : ℚ) + 1 / (b : ℚ) ≤ (ceilDiv a b : ℚ) := by
          rw [← add_div, div_le_iff₀ hbq]
          have : ((a + 1 : Nat) : ℚ) ≤ ((ceilDiv a b * b : Nat) : ℚ) := by exact_mod_cast hlt2
          push_cast at this
          linarith
        linarith [herr.2]
      · have heq : a = ceilDiv a b * b := le_antisymm hup hge2
        have hxq : (a : ℚ) / (b : ℚ) = (ceilDiv a b : ℚ) := by
          rw [div_eq_iff (ne_of_gt hbq)]
          exact_mod_cast heq
        have hcle : ceilDiv a b ≤ a := by
          calc ceilDiv a b = ceilDiv a b * 1 := (Nat.mul_one _).symm
            _ ≤ ceilDiv a b * b := Nat.mul_le_mul_left _ hb
            _ = a := heq.symm
        rw [hxq, float64_natCast _ (lt_of_le_of_lt hcle ha)]

theorem float64_one : float64 1 = 1 := by
  have h := float64_natCast 1 (by norm_num)
  simpa using h

/-- A number of `[0, 1 - 2 ^ (-53)]` rounds to a `float64` below 1. -/
theorem float64_lt_one (x : ℚ) (h0 : 0 ≤ x) (h1 : x ≤ 1 - 1 / 2 ^ 53) : float64 x < 1 := by
  by_cases hx : (2 : ℚ) ^ (-1022 : Int) ≤ x
  · have h := (abs_le.mp (float64_sub_le x hx)).2
    have hd : x / 2 ^ 53 ≤ (1 - 1 / 2 ^ 53) / 2 ^ 53 :=
      div_le_div_of_nonneg_right h1 (by positivity)
    have hc : (1 - 1 / 2 ^ 53 : ℚ) + (1 - 1 / 2 ^ 53) / 2 ^ 53 < 1 := by norm_num
    linarith
  · push_neg at hx
    rcases eq_or_lt_of_le h0 with h | hpos
    · rw [← h, float64_zero]
      norm_num
    · have habs : |x| = x := abs_of_pos hpos
      have hlog : Int.log 2 |x| < -1022 := by
        rw [habs]
        exact (Int.lt_zpow_iff_log_lt (by norm_num) hpos).mp (by exact_mod_cast hx)
      have hE : float64Exp x = -1022 := by
        unfold float64Exp
        omega
      have hu : (0 : ℚ) < 2 ^ (-1022 - 52 : Int) := zpow_pos (by norm_num) _
      have hr := (abs_le.mp (roundEven_sub_le (x / 2 ^ (-1022 - 52 : Int)))).2
      have hm : (roundEven (x / 2 ^ (-1022 - 52 : Int)) : ℚ) * 2 ^ (-1022 - 52 : Int) ≤
          (x / 2 ^ (-1022 - 52 : Int) + 1 / 2) * 2 ^ (-1022 - 52 : Int) :=
        mul_le_mul_of_nonneg_right (by linarith) hu.le
      have he : (x / 2 ^ (-1022 - 52 : Int) + 1 / 2) * 2 ^ (-1022 - 52 : Int) =
          x + 2 ^ (-1022 - 52 : Int) / 2 := by
        field_simp
        ring
      have hu1 : (2 : ℚ) ^ (-1022 - 52 : Int) ≤ 2 ^ (0 : Int) :=
        zpow_le_zpow_right₀ (by norm_num) (by norm_num)
      have hx1 : (2 : ℚ) ^ (-1022 : Int) ≤ 2 ^ (-1 : Int) :=
        zpow_le_zpow_right₀ (by norm_num) (by norm_num)
      have h2 : (2 : ℚ) ^ (-1 : Int) = 1 / 2 := by norm_num
      have h3 : (2 : ℚ) ^ (0 : Int) = 1 := by norm_num
      unfold float64
      rw [hE]
      linarith

/-! ### Arithmetic of `uint64` -/

theorem AddUint64_one (x : Nat) (h : x + 1 < uint64Size) : AddUint64 x 1 = x + 1 := by
  unfold AddUint64
  exact Nat.mod_eq_of_lt h

theorem AddUint64_not_zero (x : Nat) (h0 : 0 < x) (h : x < uint64Size) :
    AddUint64 x (notUint64 0) = x - 1 := by
  unfold AddUint64 notUint64 uint64Size at *
  omega

theorem AddUint64_lt (x delta : Nat) : AddUint64 x delta < uint64Size := by
  unfold AddUint64
  exact Nat.mod_lt _ (by unfold uint64Size; norm_num)

/-! ### `tall` -/

theorem tall_Acquire_loop_nil_iff (ctx : Context) (thrs : List Throttler.{u}) (err : GoError) :
    (tall.Acquire.loop ctx thrs err).1 = none ↔ ∃ thr ∈ thrs, (thr.Acquire ctx).1 = none := by
  induction thrs generalizing err with
  | nil => simp [tall.Acquire.loop]
  | cons thr rest ih =>
    cases h : (thr.Acquire ctx).1 with
    | none => simp [tall.Acquire.loop, h]
    | some threrr => simp [tall.Acquire.loop, h, ih]

/-- Claim C1: `NewThrottlerAll(children).Acquire` returns nil exactly when at
least one child's `Acquire` returns nil, and a non-nil error exactly when
every child's `Acquire` returns an error (for every list of children, hence
for every non-empty one); `All([echo err, echo nil, echo err])` returns nil
and `All([echo err, echo err, echo err])` returns the aggregated error. -/
theorem tall_Acquire_nil_iff_child_nil :
    (∀ (thrs : List Throttler.{u}) (ctx : Context),
      ((tall.Acquire (NewThrottlerAll thrs) ctx).1 = none ↔
        ∃ thr ∈ thrs, (thr.Acquire ctx).1 = none) ∧
      ((tall.Acquire (NewThrottlerAll thrs) ctx).1 ≠ none ↔
        ∀ thr ∈ thrs, (thr.Acquire ctx).1 ≠ none)) ∧
    (∀ ctx : Context, (tall.Acquire (NewThrottlerAll
      [(NewThrottlerEcho (some (GoError.New "test"))).asThrottler,
       (NewThrottlerEcho none).asThrottler,
       (NewThrottlerEcho (some (GoError.New "test"))).asThrottler]) ctx).1 = none) ∧
    (∀ ctx : Context, (tall.Acquire (NewThrottlerAll
      [(NewThrottlerEcho (some (GoError.New "test"))).asThrottler,
       (NewThrottlerEcho (some (GoError.New "test"))).asThrottler,
       (NewThrottlerEcho (some (GoError.New "test"))).asThrottler]) ctx).1 =
      some (GoError.Wrap2 "%w %w" (GoError.Wrap2 "%w %w" (GoError.Wrap2 "%w %w"
        (GoError.New "throttler error has happened") (GoError.New "test"))
        (GoError.New "test")) (GoError.New "test"))) := by
  refine ⟨fun thrs ctx => ?_, fun _ => rfl, fun _ => rfl⟩
  have h := tall_Acquire_loop_nil_iff ctx thrs (GoError.New "throttler error has happened")
  refine ⟨h, ?_⟩
  rw [Ne, show tall.Acquire (NewThrottlerAll thrs) ctx =
    tall.Acquire.loop ctx thrs (GoError.New "throttler error has happened") from rfl, h]
  simp

/-- Claim C3, evaluated on the code: an All throttler built from the empty
list returns the non-nil error `throttler error has happened` from both
`Acquire` and `Release`, for every context. -/
theorem tall_empty_returns_error (ctx : Context) :
    (tall.Acquire (NewThrottlerAll ([] : List Throttler.{u})) ctx).1 =
      some (GoError.New "throttler error has happened") ∧
    (tall.Release (NewThrottlerAll ([] : List Throttler.{u})) ctx).1 =
      some (GoError.New "throttler error has happened") :=
  ⟨rfl, rfl⟩

/-! ### `tany` -/

/-- Claim C2, evaluated on the code: `tany.Acquire` and `tany.Release` return
a non-nil error for every list of children, and on
`Any([echo nil, echo nil, echo nil])` they return the error
`throttler error has happened` although no child errored. -/
theorem tany_never_returns_nil :
    (∀ (thrs : List Throttler.{u}) (ctx : Context),
      (tany.Acquire (NewThrottlerAny thrs) ctx).1 ≠ none ∧
      (tany.Release (NewThrottlerAny thrs) ctx).1 ≠ none) ∧
    (∀ ctx : Context, (tany.Acquire (NewThrottlerAny
      [(NewThrottlerEcho none).asThrottler, (NewThrottlerEcho none).asThrottler,
       (NewThrottlerEcho none).asThrottler]) ctx).1 =
      some (GoError.New "throttler error has happened")) ∧
    (∀ ctx : Context, (tany.Release (NewThrottlerAny
      [(NewThrottlerEcho none).asThrottler, (NewThrottlerEcho none).asThrottler,
       (NewThrottlerEcho none).asThrottler]) ctx).1 =
      some (GoError.New "throttler error has happened")) := by
  refine ⟨fun thrs ctx => ⟨?_, ?_⟩, fun _ => rfl, fun _ => rfl⟩ <;>
    simp [tany.Acquire, tany.Release]

/-! ### `trevert` -/

theorem trevert_Acquire_fst (thr : Throttler.{u}) (ctx : Context) :
    ((NewThrottlerRevert thr).Acquire ctx).1 =
      match (thr.Acquire ctx).1 with
      | some _ => none
      | none => some (GoError.New "throttler revert error has happened") := by
  unfold trevert.Acquire NewThrottlerRevert
  cases h : (thr.Acquire ctx).1 <;> simp [h]

theorem trevert_Release_fst (thr : Throttler.{u}) (ctx : Context) :
    ((NewThrottlerRevert thr).Release ctx).1 =
      match (thr.Release ctx).1 with
      | some _ => none
      | none => some (GoError.New "throttler revert error has happened") := by
  unfold trevert.Release NewThrottlerRevert
  cases h : (thr.Release ctx).1 <;> simp [h]

theorem trevert_Acquire_snd (thr : Throttler.{u}) (ctx : Context) :
    ((NewThrottlerRevert thr).Acquire ctx).2 = NewThrottlerRevert (thr.Acquire ctx).2 := by
  unfold trevert.Acquire NewThrottlerRevert
  cases h : (thr.Acquire ctx).1 <;> simp [h]

theorem trevert_Release_snd (thr : Throttler.{u}) (ctx : Context) :
    ((NewThrottlerRevert thr).Release ctx).2 = NewThrottlerRevert (thr.Release ctx).2 := by
  unfold trevert.Release NewThrottlerRevert
  cases h : (thr.Release ctx).1 <;> simp [h]

/-- Claim C4: for every child throttler `X` and every context,
`NewThrottlerRevert(X).Acquire` returns nil exactly when `X.Acquire` returns
an error and returns an error exactly when `X.Acquire` returns nil, and the
child held afterwards is `X` after exactly one `Acquire` (its side effects are
kept); `Release` is inverted in the same way with `X.Release`. -/
theorem trevert_inverts_child (X : Throttler.{u}) (ctx : Context) :
    (((NewThrottlerRevert X).Acquire ctx).1 = none ↔ (X.Acquire ctx).1 ≠ none) ∧
    (((NewThrottlerRevert X).Acquire ctx).1 ≠ none ↔ (X.Acquire ctx).1 = none) ∧
    ((NewThrottlerRevert X).Acquire ctx).2.thr = (X.Acquire ctx).2 ∧
    (((NewThrottlerRevert X).Release ctx).1 = none ↔ (X.Release ctx).1 ≠ none) ∧
    (((NewThrottlerRevert X).Release ctx).1 ≠ none ↔ (X.Release ctx).1 = none) ∧
    ((NewThrottlerRevert X).Release ctx).2.thr = (X.Release ctx).2 := by
  rw [trevert_Acquire_fst, trevert_Release_fst, trevert_Acquire_snd, trevert_Release_snd]
  refine ⟨?_, ?_, rfl, ?_, ?_, rfl⟩
  · cases (X.Acquire ctx).1 <;> simp
  · cases (X.Acquire ctx).1 <;> simp
  · cases (X.Release ctx).1 <;> simp
  · cases (X.Release ctx).1 <;> simp

/-- Claim C5: for every throttler `X` and every context,
`NewThrottlerRevert(NewThrottlerRevert(X)).Acquire` returns nil exactly when
`X.Acquire` returns nil, and likewise for `Release`; the error returned on
failure need not be the error of `X`: for `X = echo test` it is the revert
error. -/
theorem trevert_trevert_verdict :
    (∀ (X : Throttler.{u}) (ctx : Context),
      (((NewThrottlerRevert (NewThrottlerRevert X).asThrottler).Acquire ctx).1 = none ↔
        (X.Acquire ctx).1 = none) ∧
      (((NewThrottlerRevert (NewThrottlerRevert X).asThrottler).Release ctx).1 = none ↔
        (X.Release ctx).1 = none)) ∧
    (∀ ctx : Context,
      ((NewThrottlerRevert (NewThrottlerRevert
          (NewThrottlerEcho (some (GoError.New "test"))).asThrottler).asThrottler).Acquire ctx).1 =
        some (GoError.New "throttler revert error has happened") ∧
      ((NewThrottlerEcho (some (GoError.New "test"))).asThrottler.Acquire ctx).1 =
        some (GoError.New "test")) := by
  refine ⟨fun X ctx => ⟨?_, ?_⟩, fun _ => ⟨rfl, rfl⟩⟩
  · rw [trevert_Acquire_fst]
    have h : ((NewThrottlerRevert X).asThrottler.Acquire ctx).1 =
        ((NewThrottlerRevert X).Acquire ctx).1 := rfl
    rw [h, trevert_Acquire_fst]
    cases (X.Acquire ctx).1 <;> simp
  · rw [trevert_Release_fst]
    have h : ((NewThrottlerRevert X).asThrottler.Release ctx).1 =
        ((NewThrottlerRevert X).Release ctx).1 := rfl
    rw [h, trevert_Release_fst]
    cases (X.Release ctx).1 <;> simp

/-! ### `tatomic` -/

/-- A `tatomic` admits every call until its count is above `max`: started
with `run + n ≤ max + 1`, each of `n` sequential calls of `Acquire` returns
nil and the count ends at `run + n`. -/
theorem tatomic_AcquireN_admits (ctx : Context) (n : Nat) (thr : tatomic)
    (hn : thr.run + n ≤ thr.max + 1) (hmax : thr.max + 1 < uint64Size) :
    tatomic.AcquireN ctx n thr = (List.replicate n none, { thr with run := thr.run + n }) := by
  induction n generalizing thr with
  | zero => rfl
  | succ n ih =>
    have hle : ¬ thr.run > thr.max := by omega
    have hstep : thr.Acquire ctx = (none, { thr with run := thr.run + 1 }) := by
      unfold tatomic.Acquire
      rw [if_neg hle, AddUint64_one _ (by omega)]
    have h := ih { thr with run := thr.run + 1 } (by simp only; omega) hmax
    simp only [tatomic.AcquireN, hstep, h, List.replicate_succ]
    simp only [Prod.mk.injEq, tatomic.mk.injEq, and_true, true_and]
    omega

/-- Claim C6, evaluated on the code: on a fresh `NewThrottlerAtomic(1)` three
sequential calls of `Acquire` with no `Release` return `[nil, nil, error]`,
and the in-flight count is 2, above `max = 1`, after the second call. -/
theorem tatomic_Acquire_admits_one_above_max :
    (tatomic.AcquireN Context.Background 3 (NewThrottlerAtomic 1)).1 =
      [none, none, some (GoError.Errorf "throttler has exceed running limit %d" 2)] ∧
    (tatomic.AcquireN Context.Background 2 (NewThrottlerAtomic 1)).2.run = 2 ∧
    (NewThrottlerAtomic 1).max = 1 := by
  decide

/-- Claim C7: with the count a `uint64`, `tatomic.Release` at count 0 returns
an error and leaves the receiver as it was, and at a positive count returns
nil and lowers the count by exactly one; the count after `Release` is never
above the count before (no wrap below zero), and after an over-release the
next `Acquire` does what it does on a fresh throttler. -/
theorem tatomic_Release_guarded (thr : tatomic) (ctx : Context) (h : thr.run < uint64Size) :
    (thr.run = 0 →
      (thr.Release ctx).1 = some (GoError.New "throttler has nothing to release") ∧
      (thr.Release ctx).2 = thr ∧
      (thr.Release ctx).2.Acquire ctx = (NewThrottlerAtomic thr.max).Acquire ctx) ∧
    (0 < thr.run →
      (thr.Release ctx).1 = none ∧
      (thr.Release ctx).2 = { thr with run := thr.run - 1 }) ∧
    (thr.Release ctx).2.run ≤ thr.run ∧
    (thr.Release ctx).2.run < uint64Size := by
  have hpos : 0 < thr.run → thr.Release ctx = (none, { thr with run := thr.run - 1 }) := by
    intro h0
    unfold tatomic.Release
    rw [if_neg (by omega), AddUint64_not_zero _ h0 h]
  have hzero : thr.run = 0 →
      thr.Release ctx = (some (GoError.New "throttler has nothing to release"), thr) := by
    intro h0
    unfold tatomic.Release
    rw [if_pos (by omega)]
  refine ⟨fun h0 => ?_, fun h0 => ?_, ?_, ?_⟩
  · rw [hzero h0]
    refine ⟨rfl, rfl, ?_⟩
    obtain ⟨run, max⟩ := thr
    simp only at h0
    subst h0
    rfl
  · rw [hpos h0]
    exact ⟨rfl, rfl⟩
  · rcases Nat.eq_zero_or_pos thr.run with h0 | h0
    · rw [hzero h0]
    · rw [hpos h0]
      exact Nat.sub_le _ _
  · rcases Nat.eq_zero_or_pos thr.run with h0 | h0
    · rw [hzero h0]
      exact h
    · rw [hpos h0]
      exact lt_of_le_of_lt (Nat.sub_le _ _) h

/-- Claim C7 at the count 2 of a `tatomic` with `max = 5`. -/
theorem tatomic_Release_guarded_witness :
    (2 : Nat) < uint64Size ∧
    ((tatomic.mk 2 5).Release Context.Background).1 = none ∧
    ((tatomic.mk 2 5).Release Context.Background).2 = tatomic.mk 1 5 :=
  ⟨by decide,
    ((tatomic_Release_guarded (tatomic.mk 2 5) Context.Background (by decide)).2.1
      (by decide))⟩

/-! ### `tfixed` and `ttimed` -/

/-- A `tfixed` admits every call until its counter is above `max`: started
with `cur + n ≤ max + 1`, each of `n` sequential calls of `Acquire` returns
nil and the counter ends at `cur + n`. -/
theorem tfixed_AcquireN_admits (ctx : Context) (n : Nat) (thr : tfixed)
    (hn : thr.cur + n ≤ thr.max + 1) (hmax : thr.max + 1 < uint64Size) :
    tfixed.AcquireN ctx n thr = (List.replicate n none, { thr with cur := thr.cur + n }) := by
  induction n generalizing thr with
  | zero => rfl
  | succ n ih =>
    have hle : ¬ thr.cur > thr.max := by omega
    have hstep : thr.Acquire ctx = (none, { thr with cur := thr.cur + 1 }) := by
      unfold tfixed.Acquire
      rw [if_neg hle, AddUint64_one _ (by omega)]
    have h := ih { thr with cur := thr.cur + 1 } (by simp only; omega) hmax
    simp only [tfixed.AcquireN, hstep, h, List.replicate_succ]
    simp only [Prod.mk.injEq, tfixed.mk.injEq, and_true, true_and]
    omega

/-- Claim C8, evaluated on the code: on a fresh `NewThrottlerFixed(2)` four
sequential calls of `Acquire` return `[nil, nil, nil, error]`: three calls,
one more than `max`, are admitted. -/
theorem tfixed_Acquire_admits_one_above_max :
    (tfixed.AcquireN Context.Background 4 (NewThrottlerFixed 2)).1 =
      [none, none, none, some (GoError.Errorf "throttler has exceed fixed limit %d" 3)] ∧
    (tfixed.AcquireN Context.Background 3 (NewThrottlerFixed 2)).2.cur = 3 ∧
    (NewThrottlerFixed 2).max = 2 := by
  decide

/-- The counter after a decay tick is `cur - delta` modulo `2 ^ 64`: the
difference when `delta ≤ cur`, and `2 ^ 64 - (delta - cur)` when `cur < delta`. -/
theorem NewThrottlerTimed_tick_cur (delta : Nat) (thr : tfixed)
    (hd : delta < uint64Size) (hc : thr.cur < uint64Size) :
    (NewThrottlerTimed.tick delta thr).cur =
      if delta ≤ thr.cur then thr.cur - delta else uint64Size - (delta - thr.cur) := by
  unfold NewThrottlerTimed.tick
  simp only [Nat.not_lt_zero, if_false]
  unfold AddUint64 notUint64 subUint64 uint64Size at *
  split <;> omega

/-- Claim C10, evaluated on the code: for `NewThrottlerTimed(ctx, 2, 2ms, 0)`
the decay step is `d = 2`, and a tick at `cur = 0` leaves the counter at
`2 ^ 64 - 2`, above `cur` and far from `max(cur - d, 0) = 0`; a tick at
`cur = 3` leaves 1. -/
theorem NewThrottlerTimed_tick_wraps :
    NewThrottlerTimed.delta 2 2000000 0 = 2 ∧
    (NewThrottlerTimed.tick (NewThrottlerTimed.delta 2 2000000 0) (NewThrottlerFixed 2)).cur =
      18446744073709551614 ∧
    (NewThrottlerFixed 2).cur = 0 ∧
    (NewThrottlerTimed.tick (NewThrottlerTimed.delta 2 2000000 0) (tfixed.mk 3 2)).cur = 1 := by
  decide

/-! ### `tbuffered` -/

theorem tbuffered_step_le (thr : tbuffered) (call : tbuffered.Call)
    (h : thr.run.len ≤ thr.run.cap) :
    (thr.step call).run.len ≤ (thr.step call).run.cap ∧ (thr.step call).run.cap = thr.run.cap := by
  cases call with
  | acquire ctx =>
    by_cases hlt : thr.run.len < thr.run.cap
    · simp only [tbuffered.step, tbuffered.Acquire, Chan.send, if_pos hlt, and_true]
      omega
    · simp only [tbuffered.step, tbuffered.Acquire, Chan.send, if_neg hlt, and_true]
      omega
  | release ctx pick =>
    have hsub : thr.run.len - 1 ≤ thr.run.cap := le_trans (Nat.sub_le _ _) h
    cases hr : thr.run.recvReady <;> cases he : ctx.Err <;> cases pick <;>
      simp only [tbuffered.step, tbuffered.Release, Chan.recv, hr, he, if_true, if_false,
        Bool.false_eq_true, and_true] <;>
      omega

theorem tbuffered_steps_le (calls : List tbuffered.Call) (thr : tbuffered)
    (h : thr.run.len ≤ thr.run.cap) :
    (thr.steps calls).run.len ≤ (thr.steps calls).run.cap ∧
      (thr.steps calls).run.cap = thr.run.cap := by
  induction calls generalizing thr with
  | nil => exact ⟨h, rfl⟩
  | cons call rest ih =>
    have h1 := tbuffered_step_le thr call h
    have h2 := ih (thr.step call) h1.1
    exact ⟨h2.1, h2.2.trans h1.2⟩

/-- Claim C9: on a `tbuffered`, `Acquire` completes exactly when fewer than
`size` tokens are outstanding, then returns nil and adds exactly one token;
after any sequence of calls on `NewThrottlerBlocking(size)` at most `size`
tokens are outstanding; `Release` with no token outstanding returns an error
and leaves the count unchanged; `Release` with a live context and at least
one token returns nil and removes exactly one. -/
theorem tbuffered_bounded_count :
    (∀ (thr : tbuffered) (ctx : Context),
      ((thr.Acquire ctx).isSome ↔ thr.run.len < thr.run.cap) ∧
      (∀ r, thr.Acquire ctx = some r →
        r.1 = none ∧ r.2.run.len = thr.run.len + 1 ∧ r.2.run.cap = thr.run.cap ∧
        r.2.run.len ≤ r.2.run.cap)) ∧
    (∀ (size : Nat) (calls : List tbuffered.Call),
      ((NewThrottlerBlocking size).steps calls).run.len ≤ size) ∧
    (∀ (thr : tbuffered) (ctx : Context) (pick : Bool), thr.run.len = 0 →
      (thr.Release ctx pick).1 ≠ none ∧ (thr.Release ctx pick).2 = thr) ∧
    (∀ (thr : tbuffered) (ctx : Context) (pick : Bool), ctx.Err = none → 0 < thr.run.len →
      (thr.Release ctx pick).1 = none ∧
      (thr.Release ctx pick).2.run.len = thr.run.len - 1 ∧
      (thr.Release ctx pick).2.run.cap = thr.run.cap) := by
  refine ⟨fun thr ctx => ⟨?_, ?_⟩, fun size calls => ?_, fun thr ctx pick h0 => ?_,
    fun thr ctx pick hctx hpos => ?_⟩
  · unfold tbuffered.Acquire Chan.send
    split_ifs with hlt <;> simp [hlt]
  · intro r hr
    unfold tbuffered.Acquire Chan.send at hr
    split_ifs at hr with hlt
    · simp only [Option.some.injEq] at hr
      subst hr
      exact ⟨rfl, rfl, rfl, hlt⟩
  · have h := tbuffered_steps_le calls (NewThrottlerBlocking size) (Nat.zero_le _)
    rw [h.2] at h
    exact h.1
  · have hr : thr.run.recvReady = false := by simp [Chan.recvReady, h0]
    unfold tbuffered.Release
    rw [hr]
    cases ctx.Err <;> simp
  · have hr : thr.run.recvReady = true := by simp [Chan.recvReady, hpos]
    unfold tbuffered.Release
    rw [hr, hctx]
    exact ⟨rfl, rfl, rfl⟩

/-- Claim C9 at a `tbuffered` of size 1 holding one token: with the live
context `context.Background()` the `Release` returns nil and leaves no token,
and on the emptied channel a further `Release` returns an error. -/
theorem tbuffered_bounded_count_witness :
    Context.Background.Err = none ∧ 0 < (tbuffered.mk (Chan.mk 1 1)).run.len ∧
    ((tbuffered.mk (Chan.mk 1 1)).Release Context.Background true).1 = none ∧
    ((tbuffered.mk (Chan.mk 1 1)).Release Context.Background true).2.run.len = 0 ∧
    (tbuffered.mk (Chan.mk 0 1)).run.len = 0 ∧
    ((tbuffered.mk (Chan.mk 0 1)).Release Context.Background true).1 ≠ none :=
  ⟨rfl, by decide,
    (tbuffered_bounded_count.2.2.2 (tbuffered.mk (Chan.mk 1 1)) Context.Background true rfl
      (by decide)).1,
    (tbuffered_bounded_count.2.2.2 (tbuffered.mk (Chan.mk 1 1)) Context.Background true rfl
      (by decide)).2.1,
    rfl,
    (tbuffered_bounded_count.2.2.1 (tbuffered.mk (Chan.mk 0 1)) Context.Background true rfl).1⟩

/-! ### `teach` -/

theorem teach_Acquire_eq (ctx : Context) (thr : teach) (h : thr.cur + 1 < uint64Size) :
    thr.Acquire ctx =
      (if (thr.cur + 1) % thr.num = 0 then
          some (GoError.Errorf "throttler has reached periodic skip %d" (thr.cur + 1))
        else none,
       { thr with cur := thr.cur + 1 }) := by
  unfold teach.Acquire
  simp only [AddUint64_one _ h]
  split_ifs <;> rfl

/-- The verdicts of `k` steps on a `teach` whose counter stays below `2 ^ 64`:
step `j + 1` fails exactly when the counter it reaches is a multiple of `num`. -/
theorem teach_AcquireReleaseN_from (ctx : Context) (k : Nat) (thr : teach)
    (h : thr.cur + k < uint64Size) :
    teach.AcquireReleaseN ctx k thr =
      ((List.range k).map (fun j =>
          if (thr.cur + (j + 1)) % thr.num = 0 then
            some (GoError.Errorf "throttler has reached periodic skip %d" (thr.cur + (j + 1)))
          else none),
       { thr with cur := thr.cur + k }) := by
  induction k generalizing thr with
  | zero => rfl
  | succ k ih =>
    have ha := teach_Acquire_eq ctx thr (by omega)
    have hq := ih { thr with cur := thr.cur + 1 } (by simp only; omega)
    simp only [teach.AcquireReleaseN, teach.Release, ha, hq, List.range_succ_eq_map,
      List.map_cons, List.map_map, Prod.mk.injEq, List.cons.injEq, teach.mk.injEq]
    refine ⟨⟨trivial, ?_⟩, by omega, trivial⟩
    apply List.map_congr_left
    intro j _
    simp only [Function.comp, Nat.succ_eq_add_one]
    rw [show thr.cur + 1 + (j + 1) = thr.cur + (j + 1 + 1) by omega]

/-- Claim C11: for every `n ≥ 1`, on a fresh `NewThrottlerEach(n)` used
sequentially the `k`-th `Acquire`, for `k` below `2 ^ 64`, returns an error
exactly when `k` is a (positive) multiple of `n`; `Release` returns nil and
leaves the counter as it is. -/
theorem teach_fails_on_multiples (n k : Nat) (ctx : Context) (_hn : 1 ≤ n)
    (hk : k < uint64Size) :
    (teach.AcquireReleaseN ctx k (NewThrottlerEach n)).1 =
      (List.range k).map (fun j =>
        if (j + 1) % n = 0 then
          some (GoError.Errorf "throttler has reached periodic skip %d" (j + 1))
        else none) ∧
    (1 ≤ k →
      (((teach.AcquireReleaseN ctx (k - 1) (NewThrottlerEach n)).2.Acquire ctx).1 ≠ none ↔
        n ∣ k)) ∧
    (∀ thr : teach, (thr.Release ctx).1 = none ∧ (thr.Release ctx).2 = thr) := by
  refine ⟨?_, fun hk1 => ?_, fun thr => ⟨rfl, rfl⟩⟩
  · rw [teach_AcquireReleaseN_from ctx k (NewThrottlerEach n) (by simpa [NewThrottlerEach] using hk)]
    simp [NewThrottlerEach]
  · rw [teach_AcquireReleaseN_from ctx (k - 1) (NewThrottlerEach n)
      (by simp only [NewThrottlerEach]; omega)]
    rw [teach_Acquire_eq ctx _ (by simp only [NewThrottlerEach]; omega)]
    simp only [NewThrottlerEach, Nat.zero_add, Nat.sub_add_cancel hk1]
    rw [Nat.dvd_iff_mod_eq_zero]
    split_ifs with h <;> simp [h]

/-- Claim C11 on `Each(3)`: six steps yield `[ok, ok, skip, ok, ok, skip]`. -/
theorem teach_fails_on_multiples_witness :
    1 ≤ 3 ∧ 6 < uint64Size ∧
    (teach.AcquireReleaseN Context.Background 6 (NewThrottlerEach 3)).1 =
      [none, none, some (GoError.Errorf "throttler has reached periodic skip %d" 3),
       none, none, some (GoError.Errorf "throttler has reached periodic skip %d" 6)] :=
  ⟨by decide, by decide,
    (teach_fails_on_multiples 3 6 Context.Background (by decide) (by decide)).1.trans
      (by decide)⟩

/-! ### `tafter` -/

theorem tafter_Acquire_eq (ctx : Context) (thr : tafter) (h : thr.cur + 1 < uint64Size) :
    thr.Acquire ctx =
      (if thr.cur + 1 < thr.num then
          some (GoError.Errorf "throttler has not reached pass yet %d" (thr.cur + 1))
        else none,
       { thr with cur := thr.cur + 1 }) := by
  unfold tafter.Acquire
  simp only [AddUint64_one _ h]
  split_ifs <;> rfl

/-- The verdicts of `k` steps on a `tafter` whose counter stays below
`2 ^ 64`: step `j + 1` fails exactly when the counter it reaches is below
`num`. -/
theorem tafter_AcquireReleaseN_from (ctx : Context) (k : Nat) (thr : tafter)
    (h : thr.cur + k < uint64Size) :
    tafter.AcquireReleaseN ctx k thr =
      ((List.range k).map (fun j =>
          if thr.cur + (j + 1) < thr.num then
            some (GoError.Errorf "throttler has not reached pass yet %d" (thr.cur + (j + 1)))
          else none),
       { thr with cur := thr.cur + k }) := by
  induction k generalizing thr with
  | zero => rfl
  | succ k ih =>
    have ha := tafter_Acquire_eq ctx thr (by omega)
    have hq := ih { thr with cur := thr.cur + 1 } (by simp only; omega)
    simp only [tafter.AcquireReleaseN, tafter.Release, ha, hq, List.range_succ_eq_map,
      List.map_cons, List.map_map, Prod.mk.injEq, List.cons.injEq, tafter.mk.injEq]
    refine ⟨⟨trivial, ?_⟩, by omega, trivial⟩
    apply List.map_congr_left
    intro j _
    simp only [Function.comp, Nat.succ_eq_add_one]
    rw [show thr.cur + 1 + (j + 1) = thr.cur + (j + 1 + 1) by omega]

/-- Claim C12, as the code has it: for every `n ≥ 1`, on a fresh
`NewThrottlerAfter(n)` used sequentially, among the first `k` calls of
`Acquire`, `k` below `2 ^ 64`, exactly those before the `n`-th return an error
and the later ones return nil; the counter is `k` afterwards, incremented by
the failing calls too. -/
theorem tafter_fails_before_num (n k : Nat) (ctx : Context) (_hn : 1 ≤ n)
    (hk : k < uint64Size) :
    (tafter.AcquireReleaseN ctx k (NewThrottlerAfter n)).1 =
      (List.range k).map (fun j =>
        if j + 1 < n then
          some (GoError.Errorf "throttler has not reached pass yet %d" (j + 1))
        else none) ∧
    (1 ≤ k →
      (((tafter.AcquireReleaseN ctx (k - 1) (NewThrottlerAfter n)).2.Acquire ctx).1 ≠ none ↔
        k ≤ n - 1)) ∧
    (tafter.AcquireReleaseN ctx k (NewThrottlerAfter n)).2.cur = k := by
  have hfrom := tafter_AcquireReleaseN_from ctx k (NewThrottlerAfter n)
    (by simpa [NewThrottlerAfter] using hk)
  refine ⟨?_, fun hk1 => ?_, ?_⟩
  · rw [hfrom]
    simp [NewThrottlerAfter]
  · rw [tafter_AcquireReleaseN_from ctx (k - 1) (NewThrottlerAfter n)
      (by simp only [NewThrottlerAfter]; omega)]
    rw [tafter_Acquire_eq ctx _ (by simp only [NewThrottlerAfter]; omega)]
    simp only [NewThrottlerAfter, Nat.zero_add, Nat.sub_add_cancel hk1]
    split_ifs with h
    · simp only [ne_eq, reduceCtorEq, not_false_eq_true, true_iff]
      omega
    · simp only [ne_eq, not_true_eq_false, false_iff]
      omega
  · rw [hfrom]
    simp [NewThrottlerAfter]

/-- Claim C12 on `After(3)`: of five calls the first two fail and the counter
ends at 5. -/
theorem tafter_fails_before_num_witness :
    1 ≤ 3 ∧ 5 < uint64Size ∧
    (tafter.AcquireReleaseN Context.Background 5 (NewThrottlerAfter 3)).1 =
      [some (GoError.Errorf "throttler has not reached pass yet %d" 1),
       some (GoError.Errorf "throttler has not reached pass yet %d" 2), none, none, none] ∧
    (tafter.AcquireReleaseN Context.Background 5 (NewThrottlerAfter 3)).2.cur = 5 :=
  ⟨by decide, by decide,
    (tafter_fails_before_num 3 5 Context.Background (by decide) (by decide)).1.trans (by decide),
    (tafter_fails_before_num 3 5 Context.Background (by decide) (by decide)).2.2⟩

/-- Claim C12 fails at its upper end: on a fresh `NewThrottlerAfter(1)` the
`2 ^ 64`-th `Acquire` wraps the counter to 0 and returns an error. -/
theorem tafter_Acquire_wraps_at_uint64Size :
    ((tafter.AcquireReleaseN Context.Background (uint64Size - 1)
        (NewThrottlerAfter 1)).2.Acquire Context.Background).1 =
      some (GoError.Errorf "throttler has not reached pass yet %d" 0) := by
  rw [tafter_AcquireReleaseN_from Context.Background (uint64Size - 1) (NewThrottlerAfter 1)
    (by decide)]
  decide

/-- Claim C13, as the code has it: a fresh `After(3)` driven through six
sequential Acquire-then-Release steps yields
`[not-yet, not-yet, ok, ok, ok, ok]`. -/
theorem tafter_three_six_steps :
    (tafter.AcquireReleaseN Context.Background 6 (NewThrottlerAfter 3)).1 =
      [some (GoError.Errorf "throttler has not reached pass yet %d" 1),
       some (GoError.Errorf "throttler has not reached pass yet %d" 2),
       none, none, none, none] := by
  decide

/-- Claim C13 fails: the third `Acquire` of a fresh `After(3)` returns nil, so
the verdicts of six steps are not `[not-yet, not-yet, not-yet, ok, ok, ok]`. -/
theorem tafter_three_third_Acquire_passes :
    ((tafter.AcquireReleaseN Context.Background 2
        (NewThrottlerAfter 3)).2.Acquire Context.Background).1 = none ∧
    (tafter.AcquireReleaseN Context.Background 6 (NewThrottlerAfter 3)).1.map Option.isSome ≠
      [true, true, true, false, false, false] := by
  decide

/-- Claim C14, evaluated on the code: on a fresh `NewThrottlerAfter(3)` the
six calls of `Acquire` are `[error, error, nil, nil, nil, nil]`: the first
call already fails and the fourth to sixth pass. -/
theorem tafter_three_throttles_before :
    (tafter.AcquireReleaseN Context.Background 6 (NewThrottlerAfter 3)).1.map Option.isSome =
      [true, true, false, false, false, false] ∧
    ((NewThrottlerAfter 3).Acquire Context.Background).1 =
      some (GoError.Errorf "throttler has not reached pass yet %d" 1) ∧
    ((tafter.AcquireReleaseN Context.Background 3
        (NewThrottlerAfter 3)).2.Acquire Context.Background).1 = none := by
  decide

/-! ### `tpriority` -/

/-- The function `ceilDiv` is the ceiling of the exact quotient. -/
theorem ceilDiv_eq_ceil (a b : Nat) (hb : 0 < b) : ceilDiv a b = ⌈(a : ℚ) / (b : ℚ)⌉₊ := by
  unfold ceilDiv
  have hbq : (0 : ℚ) < (b : ℚ) := by exact_mod_cast hb
  apply le_antisymm
  · rcases Nat.eq_zero_or_pos ((a + b - 1) / b) with h0 | hpos
    · rw [h0]
      exact Nat.zero_le _
    · have h1 : (a + b - 1) / b - 1 < ⌈(a : ℚ) / (b : ℚ)⌉₊ := by
        rw [Nat.lt_ceil, lt_div_iff₀ hbq]
        have hmul : (a + b - 1) / b * b ≤ a + b - 1 := Nat.div_mul_le_self _ _
        have hlt : ((a + b - 1) / b - 1) * b < a := by
          have : ((a + b - 1) / b - 1) * b = (a + b - 1) / b * b - b := by
            rw [Nat.sub_mul, Nat.one_mul]
          have hge : b ≤ (a + b - 1) / b * b := Nat.le_mul_of_pos_left b hpos
          omega
        exact_mod_cast hlt
      omega
  · rw [Nat.ceil_le, div_le_iff₀ hbq]
    have hlt : a + b - 1 < b * ((a + b - 1) / b + 1) := Nat.lt_mul_div_succ _ hb
    have hle : a ≤ (a + b - 1) / b * b := by
      rw [Nat.mul_add, Nat.mul_one, Nat.mul_comm] at hlt
      omega
    exact_mod_cast hle

theorem sumUpTo_mul_two (levels : Nat) : sumUpTo levels * 2 = levels * (levels + 1) := by
  induction levels with
  | zero => rfl
  | succ n ih =>
    have h : sumUpTo (n + 1) = sumUpTo n + (n + 1) := by
      unfold sumUpTo
      rw [List.range_succ, List.map_append, List.sum_append]
      simp
    rw [h, Nat.add_mul, ih]
    ring

theorem NewThrottlerBlockingPriority_sum_eq (levels : Nat) (h1 : 1 ≤ levels)
    (h2 : levels ≤ 254) : NewThrottlerBlockingPriority.sum levels = sumUpTo levels := by
  unfold NewThrottlerBlockingPriority.sum
  have hw : (2 + (levels + 255) % 256) % 256 = levels + 1 := by omega
  rw [hw, ← sumUpTo_mul_two, Nat.mul_div_cancel _ (by decide : 0 < 2)]

theorem ceilDiv_le_self (a b : Nat) (hb : 0 < b) : ceilDiv a b ≤ a := by
  unfold ceilDiv
  rcases Nat.eq_zero_or_pos a with h0 | hpos
  · subst h0
    rw [Nat.div_eq_of_lt (by omega)]
  · apply Nat.div_le_of_le_mul
    obtain ⟨c, rfl⟩ : ∃ c, a = c + 1 := ⟨a - 1, by omega⟩
    have : c ≤ b * c := Nat.le_mul_of_pos_left c hb
    rw [Nat.mul_add, Nat.mul_one]
    omega

/-- For `size` below `2 ^ 53` and `levels` from 1 to 254 the variable `koef`
is the ceiling of the exact quotient `size / (1 + … + levels)`: rounding the
quotient to `float64` does not move its ceiling. -/
theorem NewThrottlerBlockingPriority_koef_eq (size levels ovf : Nat) (h1 : 1 ≤ levels)
    (h2 : levels ≤ 254) (hs : size < 2 ^ 53) :
    NewThrottlerBlockingPriority.koef size levels ovf = ceilDiv size (sumUpTo levels) := by
  have hsum := NewThrottlerBlockingPriority_sum_eq levels h1 h2
  have h2s := sumUpTo_mul_two levels
  have hpos : 0 < sumUpTo levels := by
    rcases Nat.eq_zero_or_pos (sumUpTo levels) with h0 | h0
    · rw [h0] at h2s
      have : 0 < levels * (levels + 1) := Nat.mul_pos h1 (Nat.succ_pos _)
      omega
    · exact h0
  have hbound : sumUpTo levels * 2 ≤ 254 * 255 := by
    rw [h2s]
    exact Nat.mul_le_mul h2 (by omega)
  have hb : sumUpTo levels < 2 ^ 53 := by omega
  have hceil := ceil_float64_div size (sumUpTo levels) hpos hs hb
  have hle := ceilDiv_le_self size (sumUpTo levels) hpos
  have hlt : ((ceilDiv size (sumUpTo levels) : Nat) : Int) < 2 ^ 64 := by
    have : ceilDiv size (sumUpTo levels) < 2 ^ 64 := by omega
    exact_mod_cast this
  unfold NewThrottlerBlockingPriority.koef
  rw [hsum, if_neg (by omega), float64_natCast size hs, hceil, if_pos hlt, Int.toNat_natCast]

/-- Claim C15, as the code has it: for every `size` below `2 ^ 53` and every
`levels` from 1 to 254, the capacity `uint64(i)*koef` that the loop of
`NewThrottlerBlockingPriority` computes for the queue of priority `i`,
`1 ≤ i ≤ levels`, is `i · ⌈size / (1 + 2 + … + levels)⌉`. -/
theorem NewThrottlerBlockingPriority_capacity (size levels i ovf : Nat)
    (h1 : 1 ≤ levels) (h2 : levels ≤ 254) (_hi1 : 1 ≤ i) (hi2 : i ≤ levels)
    (hs : size < 2 ^ 53) :
    NewThrottlerBlockingPriority.capacity
        (NewThrottlerBlockingPriority.koef size levels ovf) i =
      i * ceilDiv size (sumUpTo levels) := by
  have h2s := sumUpTo_mul_two levels
  have hpos : 0 < sumUpTo levels := by
    rcases Nat.eq_zero_or_pos (sumUpTo levels) with h0 | h0
    · rw [h0] at h2s
      have : 0 < levels * (levels + 1) := Nat.mul_pos h1 (Nat.succ_pos _)
      omega
    · exact h0
  rw [NewThrottlerBlockingPriority_koef_eq size levels ovf h1 h2 hs]
  unfold NewThrottlerBlockingPriority.capacity mulUint64
  apply Nat.mod_eq_of_lt
  have hle := ceilDiv_le_self size (sumUpTo levels) hpos
  have hmul : i * ceilDiv size (sumUpTo levels) ≤ 254 * 2 ^ 53 :=
    Nat.mul_le_mul (by omega) (by omega)
  unfold uint64Size
  omega

/-- Claim C15 at `size = 5`, `levels = 2`: the capacity of queue 2 is
`2 · ⌈5 / 3⌉ = 4`. -/
theorem NewThrottlerBlockingPriority_capacity_witness :
    1 ≤ 2 ∧ 2 ≤ 254 ∧ 5 < 2 ^ 53 ∧
    NewThrottlerBlockingPriority.capacity (NewThrottlerBlockingPriority.koef 5 2 0) 2 = 4 :=
  ⟨by decide, by decide, by decide,
    (NewThrottlerBlockingPriority_capacity 5 2 2 0 (by decide) (by decide) (by decide)
      (by decide) (by decide)).trans (by decide)⟩

/-- Claim C15 fails in two ways.  At `size = 2 ^ 53 + 1`, `levels = 1` the
capacity computed for queue 1, which the constructor does hand to `make`, is
`2 ^ 53`: `float64(size)` rounds to `2 ^ 53`, so it is not
`⌈size · 1 / 1⌉ = 2 ^ 53 + 1`.  At `size = 1`, `levels = 2` the capacity
expression of queue 2 is `2 · ⌈1 / 3⌉ = 2`, not `⌈1 · 2 / (1 + 2)⌉ = 1`. -/
theorem NewThrottlerBlockingPriority_capacity_not_ceil :
    (∀ ovf : Nat, NewThrottlerBlockingPriority.capacity
      (NewThrottlerBlockingPriority.koef 9007199254740993 1 ovf) 1 = 9007199254740992) ∧
    ceilDiv (9007199254740993 * 1) (sumUpTo 1) = 9007199254740993 ∧
    (∀ ovf : Nat, NewThrottlerBlockingPriority.capacity
      (NewThrottlerBlockingPriority.koef 9007199254740993 1 ovf) 1 ≠
        ceilDiv (9007199254740993 * 1) (sumUpTo 1)) ∧
    NewThrottlerBlockingPriority.capacity (NewThrottlerBlockingPriority.koef 1 2 0) 2 = 2 ∧
    ceilDiv (1 * 2) (sumUpTo 2) = 1 ∧
    NewThrottlerBlockingPriority.capacity (NewThrottlerBlockingPriority.koef 1 2 0) 2 ≠
      ceilDiv (1 * 2) (sumUpTo 2) := by
  have hbig : ∀ ovf : Nat, NewThrottlerBlockingPriority.capacity
      (NewThrottlerBlockingPriority.koef 9007199254740993 1 ovf) 1 = 9007199254740992 := by
    intro ovf
    have hs : NewThrottlerBlockingPriority.sum 1 = 1 := by decide
    have hf1 : float64 ((9007199254740993 : Nat) : ℚ) = 9007199254740992 := by
      push_cast
      rw [float64_eq_of_exp_pos _ 53 (by norm_num) (by norm_num) (by norm_num)]
      norm_num [roundEven]
    have hf2 : float64 ((9007199254740992 : ℚ) / ((1 : Nat) : ℚ)) = 9007199254740992 := by
      rw [Nat.cast_one, div_one,
        float64_eq_of_exp_pos _ 53 (by norm_num) (by norm_num) (by norm_num)]
      norm_num [roundEven]
    have hc : ⌈(9007199254740992 : ℚ)⌉ = 9007199254740992 := by
      exact_mod_cast Int.ceil_intCast (9007199254740992 : Int)
    have hk : NewThrottlerBlockingPriority.koef 9007199254740993 1 ovf = 9007199254740992 := by
      unfold NewThrottlerBlockingPriority.koef
      rw [hs, if_neg (by decide), hf1, hf2, hc, if_pos (by decide)]
      rfl
    rw [hk]
    decide
  have hsmall : NewThrottlerBlockingPriority.capacity
      (NewThrottlerBlockingPriority.koef 1 2 0) 2 = 2 := by
    rw [NewThrottlerBlockingPriority_koef_eq 1 2 0 (by decide) (by decide) (by decide)]
    decide
  refine ⟨hbig, by decide, fun ovf => ?_, hsmall, by decide, ?_⟩
  · rw [hbig ovf]
    decide
  · rw [hsmall]
    decide

/-- The constructor panics on its nil map as soon as the capacity of queue 1
is one that `make` accepts. -/
theorem NewThrottlerBlockingPriority_nil_map (size priority ovf fuel : Nat)
    (hcap : NewThrottlerBlockingPriority.capacity (NewThrottlerBlockingPriority.koef size
      (if priority = 0 then 1 else priority) ovf) 1 < 2 ^ 63) :
    NewThrottlerBlockingPriority size priority ovf (fuel + 1) =
      some (Except.error GoPanic.assignNilMap) := by
  have hp : 1 ≤ (if priority = 0 then 1 else priority) := by split_ifs <;> omega
  simp only [NewThrottlerBlockingPriority, NewThrottlerBlockingPriority.loop, if_pos hp]
  rw [if_neg (by omega)]

theorem NewThrottlerBlockingPriority_capacity_one_one (ovf : Nat) :
    NewThrottlerBlockingPriority.capacity (NewThrottlerBlockingPriority.koef 1 1 ovf) 1 = 1 := by
  rw [NewThrottlerBlockingPriority_koef_eq 1 1 ovf (by decide) (by decide) (by decide)]
  decide

theorem NewThrottlerBlockingPriority_capacity_five_two (ovf i : Nat) :
    NewThrottlerBlockingPriority.capacity (NewThrottlerBlockingPriority.koef 5 2 ovf) i =
      NewThrottlerBlockingPriority.capacity 2 i := by
  rw [NewThrottlerBlockingPriority_koef_eq 5 2 ovf (by decide) (by decide) (by decide)]
  rfl

/-- Claim C16, evaluated on the code: `NewThrottlerBlockingPriority` leaves
the map `run` nil, so for every `size` and `priority` its first loop
iteration ends in a run-time panic and no throttler is returned; on
`(1, 0)` and `(5, 2)` the panic is `assignment to entry in nil map`. -/
theorem NewThrottlerBlockingPriority_panics :
    (∀ size priority ovf fuel : Nat, ∃ p : GoPanic,
      NewThrottlerBlockingPriority size priority ovf (fuel + 1) = some (Except.error p)) ∧
    (∀ ovf fuel : Nat, NewThrottlerBlockingPriority 1 0 ovf (fuel + 1) =
      some (Except.error GoPanic.assignNilMap)) ∧
    (∀ ovf fuel : Nat, NewThrottlerBlockingPriority 5 2 ovf (fuel + 1) =
      some (Except.error GoPanic.assignNilMap)) := by
  refine ⟨fun size priority ovf fuel => ?_, fun ovf fuel => ?_, fun ovf fuel => ?_⟩
  · have hp : 1 ≤ (if priority = 0 then 1 else priority) := by split_ifs <;> omega
    simp only [NewThrottlerBlockingPriority, NewThrottlerBlockingPriority.loop, if_pos hp]
    split_ifs <;>
      first
        | exact ⟨GoPanic.makechanSize, rfl⟩
        | exact ⟨GoPanic.assignNilMap, rfl⟩
  · apply NewThrottlerBlockingPriority_nil_map
    rw [if_pos rfl, NewThrottlerBlockingPriority_capacity_one_one]
    decide
  · apply NewThrottlerBlockingPriority_nil_map
    rw [if_neg (by decide), NewThrottlerBlockingPriority_capacity_five_two]
    decide

/-- Claim C17, evaluated on the code: the capacities computed for
`(size = 5, levels = 2)` are 2 and 4, and `levels = 0` is treated as 1 with
capacity 1 for `size = 1`; but the constructor call `Priority(1, 0)` panics
and returns no throttler, while `Buffered(1)` admits a first `Acquire`. -/
theorem NewThrottlerBlockingPriority_one_zero_panics :
    NewThrottlerBlockingPriority.capacity (NewThrottlerBlockingPriority.koef 5 2 0) 1 = 2 ∧
    NewThrottlerBlockingPriority.capacity (NewThrottlerBlockingPriority.koef 5 2 0) 2 = 4 ∧
    (∀ ovf fuel : Nat, NewThrottlerBlockingPriority 1 0 ovf fuel =
      NewThrottlerBlockingPriority 1 1 ovf fuel) ∧
    NewThrottlerBlockingPriority.capacity (NewThrottlerBlockingPriority.koef 1 1 0) 1 = 1 ∧
    (∀ ovf fuel : Nat, NewThrottlerBlockingPriority 1 0 ovf (fuel + 1) =
      some (Except.error GoPanic.assignNilMap)) ∧
    (NewThrottlerBlocking 1).Acquire Context.Background =
      some (none, tbuffered.mk (Chan.mk 1 1)) := by
  refine ⟨?_, ?_, fun _ _ => rfl, NewThrottlerBlockingPriority_capacity_one_one 0,
    fun ovf fuel => ?_, by decide⟩
  · rw [NewThrottlerBlockingPriority_capacity_five_two]
    decide
  · rw [NewThrottlerBlockingPriority_capacity_five_two]
    decide
  · apply NewThrottlerBlockingPriority_nil_map
    rw [if_pos rfl, NewThrottlerBlockingPriority_capacity_one_one]
    decide

/-! ### `tadaptive` -/

/-- After a failing probe `tadaptive.Acquire` lowers `max` by `step² + 1`
(when that does not pass below 0), and after a passing probe raises it by
`step` (when that stays a `uint64`). -/
theorem tadaptive_Acquire_max_eq (max step : Nat) (e : GoError) :
    (step * step + 1 ≤ max → max < uint64Size →
      tadaptive.Acquire.max max step (some e) = max - (step * step + 1)) ∧
    (max < step * step + 1 → step * step < uint64Size →
      tadaptive.Acquire.max max step (some e) = max + uint64Size - (step * step + 1)) ∧
    (max + step < uint64Size → tadaptive.Acquire.max max step none = max + step) := by
  unfold tadaptive.Acquire.max AddUint64 notUint64 mulUint64 uint64Size
  generalize step * step = sq
  refine ⟨fun h1 h2 => ?_, fun h1 h2 => ?_, fun h => ?_⟩
  · simp only
    omega
  · simp only
    omega
  · simp only
    omega

/-- Claim C18, evaluated on the code: on `Adaptive(max = 7, step = 2)` with a
probe that fails, one `Acquire` leaves `max = 2`: it subtracts `step² + 1 = 5`,
not `step² = 4` (which would leave 3).  The other parts hold there: the probe
is called once, the verdict is that of `Timed` against the new `max`, and a
passing probe adds `step`. -/
theorem tadaptive_Acquire_subtracts_one_more :
    ((NewThrottlerAdaptive Context.Background 7 2000000 0 2
        (NewThrottlerEcho (some (GoError.New "test"))).asThrottler).Acquire
          Context.Background).2.ttimed.tfixed.max = 2 ∧
    tadaptive.Acquire.max 7 2 (some (GoError.New "test")) = 7 - (2 * 2 + 1) ∧
    tadaptive.Acquire.max 7 2 (some (GoError.New "test")) ≠ 7 - 2 * 2 ∧
    tadaptive.Acquire.max 7 2 none = 7 + 2 ∧
    (∀ (thr : tadaptive.{u}) (ctx : Context),
      (thr.Acquire ctx).2.thr = (thr.thr.Acquire ctx).2 ∧
      (thr.Acquire ctx).1 =
        ((ttimed.mk (tfixed.mk thr.ttimed.tfixed.cur
            (tadaptive.Acquire.max thr.ttimed.tfixed.max thr.step (thr.thr.Acquire ctx).1))
          thr.ttimed.wnd thr.ttimed.sld).Acquire ctx).1) := by
  refine ⟨by decide, by decide, by decide, by decide, fun thr ctx => ⟨rfl, rfl⟩⟩

/-- Claim C19, evaluated on the code: `tadaptive.Acquire` has no guard
against underflow.  On `Adaptive(max = 7, step = 2)` with a probe that always
fails, three calls of `Acquire` return `[nil, nil, nil]`: the second call
wraps `max` from 2 to `2 ^ 64 - 3`; and on `Adaptive(max = 0, step = 1)` one
call raises `max` from 0 to `2 ^ 64 - 2`. -/
theorem tadaptive_Acquire_max_wraps :
    (tadaptive.AcquireN Context.Background 3
      (NewThrottlerAdaptive Context.Background 7 2000000 0 2
        (NewThrottlerEcho (some (GoError.New "test"))).asThrottler)).1 = [none, none, none] ∧
    (tadaptive.AcquireN Context.Background 1
      (NewThrottlerAdaptive Context.Background 7 2000000 0 2
        (NewThrottlerEcho (some (GoError.New "test"))).asThrottler)).2.ttimed.tfixed.max = 2 ∧
    (tadaptive.AcquireN Context.Background 2
      (NewThrottlerAdaptive Context.Background 7 2000000 0 2
        (NewThrottlerEcho (some (GoError.New "test"))).asThrottler)).2.ttimed.tfixed.max =
      18446744073709551613 ∧
    ((NewThrottlerAdaptive Context.Background 0 2000000 0 1
        (NewThrottlerEcho (some (GoError.New "test"))).asThrottler).Acquire
          Context.Background).2.ttimed.tfixed.max = 18446744073709551614 := by
  decide

/-! ### `tlatency` -/

/-- The sample of `tlatency.Release` is `ctxTimestamp(ctx) - now` as a
`uint64`: for a timestamp in the past it is `2 ^ 64 - (now - ts)`, for the
timestamp `now` it is 0, and only for a timestamp in the future is it the
distance `ts - now`. -/
theorem tlatency_Release_lat_eq (ctx : Context) (ts now : Int)
    (hts : ctx.Timestamp = some ts) :
    (ts < now → now - ts < 2 ^ 64 →
      (tlatency.Release.lat ctx now : Int) = 2 ^ 64 - (now - ts)) ∧
    (ts = now → tlatency.Release.lat ctx now = 0) ∧
    (now ≤ ts → ts - now < 2 ^ 64 → (tlatency.Release.lat ctx now : Int) = ts - now) := by
  unfold tlatency.Release.lat ctxTimestamp uint64OfInt
  rw [hts]
  simp only [Option.getD_some]
  refine ⟨fun h1 h2 => ?_, fun h => ?_, fun h1 h2 => ?_⟩
  · omega
  · omega
  · omega

/-- Claim C20, evaluated on the code: at `now = 1s` a context timestamp 5ms
in the past gives the sample `2 ^ 64 - 5000000`, not `now - ts = 5000000`:
the operands of the subtraction are the other way round.  `Release` on a
fresh `Latency(0.9ms, 5ms)` stores that sample, and the timestamp `now` gives
0. -/
theorem tlatency_Release_lat_reversed :
    tlatency.Release.lat { Timestamp := some 995000000 } 1000000000 = 18446744073704551616 ∧
    (1000000000 - 995000000 : Int) = 5000000 ∧
    ((NewThrottlerLatency 900000 5000000).Release
      { Timestamp := some 995000000 } 1000000000).2.1.lat = 18446744073704551616 ∧
    tlatency.Release.lat { Timestamp := some 1000000000 } 1000000000 = 0 := by
  decide

/-! ### `tchance` -/

/-- For a possibility `p ≥ 1` the stored value is 1, and `Acquire` fails for
every `rnd` from `2 ^ (-53)` to 1: there `1.0 - rnd` is below 1 in
`float64`. -/
theorem tchance_ge_one_fails (p rnd : ℚ) (ctx : Context) (hp : 1 ≤ p)
    (h0 : 1 / 2 ^ 53 ≤ rnd) (h1 : rnd ≤ 1) :
    (NewThrottlerChance p).pos = 1 ∧
    ((NewThrottlerChance p).Acquire ctx rnd).1 =
      some (GoError.New "throttler has missed a chance") := by
  have habs : |p| = p := abs_of_nonneg (by linarith)
  have hpos : (NewThrottlerChance p).pos = 1 := by
    unfold NewThrottlerChance
    simp only [habs]
    split_ifs with h
    · rfl
    · linarith
  refine ⟨hpos, ?_⟩
  have hlt : float64 (1 - rnd) < 1 := float64_lt_one (1 - rnd) (by linarith) (by linarith)
  unfold tchance.Acquire
  rw [hpos, if_pos hlt]

/-- Claim C21, evaluated on the code: with `rand.Float64()` returning 0, a
value of `[0, 1)`, `NewThrottlerChance(1).Acquire` returns nil, and so does
`NewThrottlerChance(10.10).Acquire`: the test `pos > 1.0 - 0` is `1 > 1`. -/
theorem tchance_one_passes_at_zero :
    ((0 : ℚ) ≤ 0 ∧ (0 : ℚ) < 1) ∧
    (NewThrottlerChance 1).pos = 1 ∧
    ((NewThrottlerChance 1).Acquire Context.Background 0).1 = none ∧
    ((NewThrottlerChance (101 / 10)).Acquire Context.Background 0).1 = none := by
  refine ⟨⟨le_refl _, by norm_num⟩, ?_, ?_, ?_⟩
  · norm_num [NewThrottlerChance]
  · norm_num [NewThrottlerChance, tchance.Acquire, float64_one]
  · have h : |(101 / 10 : ℚ)| = 101 / 10 := abs_of_nonneg (by norm_num)
    norm_num [NewThrottlerChance, tchance.Acquire, h, float64_one]

/-- Claim C22, as the code has it: for the possibility `p = 0` and every
`rnd` in `[0, 1)`, `NewThrottlerChance(p).Acquire` returns nil. -/
theorem tchance_zero_passes (rnd : ℚ) (ctx : Context) (_h0 : 0 ≤ rnd) (h1 : rnd < 1) :
    ((NewThrottlerChance 0).Acquire ctx rnd).1 = none := by
  have hpos : (NewThrottlerChance 0).pos = 0 := by
    norm_num [NewThrottlerChance]
  have hge : ¬ float64 (1 - rnd) < 0 := not_lt.mpr (float64_nonneg (1 - rnd) (by linarith))
  unfold tchance.Acquire
  rw [hpos, if_neg hge]

/-- Claim C22 at `p = 0`, `rnd = 1/2`. -/
theorem tchance_zero_passes_witness :
    (0 : ℚ) ≤ 1 / 2 ∧ (1 / 2 : ℚ) < 1 ∧
    ((NewThrottlerChance 0).Acquire Context.Background (1 / 2)).1 = none :=
  ⟨by norm_num, by norm_num,
    tchance_zero_passes (1 / 2) Context.Background (by norm_num) (by norm_num)⟩

/-- Claim C22 fails for a negative possibility: with `p = -1` and
`rnd = 1/2` in `[0, 1)`, the stored value is 1, `1.0 - rnd` is `1/2`, and
`Acquire` returns an error. -/
theorem tchance_negative_fails :
    ((-1 : ℚ) ≤ 0 ∧ (0 : ℚ) ≤ 1 / 2 ∧ (1 / 2 : ℚ) < 1) ∧
    ((NewThrottlerChance (-1)).Acquire Context.Background (1 / 2)).1 =
      some (GoError.New "throttler has missed a chance") := by
  refine ⟨⟨by norm_num, by norm_num, by norm_num⟩, ?_⟩
  have hpos : (NewThrottlerChance (-1)).pos = 1 := by
    norm_num [NewThrottlerChance]
  have hlt : float64 (1 - 1 / 2) < 1 := float64_lt_one _ (by norm_num) (by norm_num)
  unfold tchance.Acquire
  rw [hpos, if_pos hlt]

/-! ### `tpercentile` -/

theorem mathRound_of_nonneg (x : ℚ) (hx : 0 ≤ x) : mathRound x = round x := by
  unfold mathRound
  rw [if_pos hx, round_eq]

/-- Claim C23, as the code has it: for every heap and every stored percentile
`p` in `[0, 1]`, `tpercentile.Acquire` reads the sample at the index
`round(float64(len) · p)`, the `float64` product rounded to the nearest
integer with halves going up, which is `⌊len · p + 1/2⌋` whenever the
conversion and the product are exact in `float64`; it fails exactly when the
sample at that index is strictly greater than `max`; the receiver is
unchanged. -/
theorem tpercentile_Acquire_reads_round (At : latheap → Int → Nat) (thr : tpercentile)
    (ctx : Context) (hp0 : 0 ≤ thr.pnt) (_hp1 : thr.pnt ≤ 1) :
    tpercentile.Acquire.pos thr =
      round (float64 (float64 (thr.lat.length : ℚ) * thr.pnt)) ∧
    tpercentile.Acquire.pos thr =
      ⌊float64 (float64 (thr.lat.length : ℚ) * thr.pnt) + 1 / 2⌋ ∧
    (float64 (float64 (thr.lat.length : ℚ) * thr.pnt) = (thr.lat.length : ℚ) * thr.pnt →
      tpercentile.Acquire.pos thr = ⌊(thr.lat.length : ℚ) * thr.pnt + 1 / 2⌋) ∧
    ((thr.Acquire At ctx).1 ≠ none ↔ At thr.lat (tpercentile.Acquire.pos thr) > thr.max) ∧
    (thr.Acquire At ctx).2.1 = thr := by
  have hl : 0 ≤ float64 (thr.lat.length : ℚ) := float64_nonneg _ (Nat.cast_nonneg _)
  have hx : 0 ≤ float64 (float64 (thr.lat.length : ℚ) * thr.pnt) :=
    float64_nonneg _ (mul_nonneg hl hp0)
  have hpos : tpercentile.Acquire.pos thr =
      round (float64 (float64 (thr.lat.length : ℚ) * thr.pnt)) := by
    unfold tpercentile.Acquire.pos latheap.Len
    exact mathRound_of_nonneg _ hx
  refine ⟨hpos, ?_, fun he => ?_, ?_, ?_⟩
  · rw [hpos, round_eq]
  · rw [hpos, round_eq, he]
  · unfold tpercentile.Acquire
    simp only
    split_ifs with h
    · simp only [ne_eq, reduceCtorEq, not_false_eq_true, true_iff]
      exact h
    · simp only [ne_eq, not_true_eq_false, false_iff]
      exact h
  · unfold tpercentile.Acquire
    simp only
    split_ifs <;> rfl

/-- Claim C23 on a heap of two samples with percentile `1/2`: the product
`2 · 1/2` is exact and the index read is `⌊2 · 1/2 + 1/2⌋ = 1`. -/
theorem tpercentile_Acquire_reads_round_witness :
    (0 : ℚ) ≤ (tpercentile.mk [10, 20] 15 (1 / 2) 0).pnt ∧
    (tpercentile.mk [10, 20] 15 (1 / 2) 0).pnt ≤ 1 ∧
    tpercentile.Acquire.pos (tpercentile.mk [10, 20] 15 (1 / 2) 0) =
      ⌊((2 : Nat) : ℚ) * (1 / 2) + 1 / 2⌋ :=
  ⟨by norm_num, by norm_num,
    (tpercentile_Acquire_reads_round (fun _ _ => 0) (tpercentile.mk [10, 20] 15 (1 / 2) 0)
      Context.Background (by norm_num) (by norm_num)).2.2.1 (by
        show float64 (float64 ((2 : Nat) : ℚ) * (1 / 2)) = ((2 : Nat) : ℚ) * (1 / 2)
        rw [float64_natCast 2 (by norm_num)]
        norm_num
        exact float64_one)⟩

/-- Claim C23 fails on a heap of three samples with percentile `1/2`: the
index read is `round(1.5) = 2`, not `⌊1.5⌋ = 1`. -/
theorem tpercentile_Acquire_pos_not_floor :
    tpercentile.Acquire.pos (tpercentile.mk [10, 20, 30] 15 (1 / 2) 0) = 2 ∧
    ⌊(((3 : Nat) : ℚ)) * (1 / 2)⌋ = 1 ∧
    tpercentile.Acquire.pos (tpercentile.mk [10, 20, 30] 15 (1 / 2) 0) ≠
      ⌊(((3 : Nat) : ℚ)) * (1 / 2)⌋ := by
  have h1 : tpercentile.Acquire.pos (tpercentile.mk [10, 20, 30] 15 (1 / 2) 0) = 2 := by
    have hf : float64 (float64 ((3 : Nat) : ℚ) * (1 / 2)) = 3 / 2 := by
      rw [float64_natCast 3 (by norm_num),
        float64_eq_of_exp_pos _ 0 (by norm_num) (by norm_num) (by norm_num)]
      norm_num [roundEven]
    show mathRound (float64 (float64 ((3 : Nat) : ℚ) * (1 / 2))) = 2
    rw [hf]
    norm_num [mathRound]
  have h2 : ⌊(((3 : Nat) : ℚ)) * (1 / 2)⌋ = 1 := by
    rw [Int.floor_eq_iff]
    norm_num
  refine ⟨h1, h2, ?_⟩
  rw [h1, h2]
  decide

/-- The product is rounded before `math.Round` sees it: on a heap of ten
samples with the stored percentile `0.35`, the `float64` nearest to 0.35, the
product `3.4999999999999997…` is `3.5` in `float64` and the index read is 4,
where `⌊len · p + 1/2⌋` is 3. -/
theorem tpercentile_Acquire_pos_rounds_product :
    float64 (35 / 100) = 6305039478318694 / 18014398509481984 ∧
    tpercentile.Acquire.pos (tpercentile.mk [1, 2, 3, 4, 5, 6, 7, 8, 9, 10] 15
      (6305039478318694 / 18014398509481984) 0) = 4 ∧
    ⌊(((10 : Nat) : ℚ)) * (6305039478318694 / 18014398509481984) + 1 / 2⌋ = 3 := by
  refine ⟨?_, ?_, ?_⟩
  · rw [float64_eq_of_exp_pos _ (-2) (by norm_num) (by norm_num) (by norm_num)]
    norm_num [roundEven]
  · have hf : float64 (float64 ((10 : Nat) : ℚ) * (6305039478318694 / 18014398509481984)) =
        7 / 2 := by
      rw [float64_natCast 10 (by norm_num),
        float64_eq_of_exp_pos _ 1 (by norm_num) (by norm_num) (by norm_num)]
      norm_num [roundEven]
    show mathRound (float64 (float64 ((10 : Nat) : ℚ) *
      (6305039478318694 / 18014398509481984))) = 4
    rw [hf]
    norm_num [mathRound]
  · rw [Int.floor_eq_iff]
    norm_num

/-! ### `tstats` -/

/-- Claim C24, as the code has it: `tstats.Acquire` returns an error exactly
when at least one of the four readings is greater than or equal to its
threshold, and nil exactly when each reading is strictly below its threshold;
`Release` returns nil. -/
theorem tstats_Acquire_iff (thr : tstats) (ctx : Context) :
    ((thr.Acquire ctx).1 ≠ none ↔
      (thr.stats.stats.1 ≥ thr.alloc ∨ thr.stats.stats.2.1 ≥ thr.system ∨
        thr.stats.stats.2.2.1 ≥ thr.avgpause ∨ thr.stats.stats.2.2.2 ≥ thr.avgusage)) ∧
    ((thr.Acquire ctx).1 = none ↔
      (thr.stats.stats.1 < thr.alloc ∧ thr.stats.stats.2.1 < thr.system ∧
        thr.stats.stats.2.2.1 < thr.avgpause ∧ thr.stats.stats.2.2.2 < thr.avgusage)) ∧
    (thr.Release ctx).1 = none := by
  refine ⟨?_, ?_, rfl⟩
  · unfold tstats.Acquire
    simp only
    split_ifs with h
    · simp only [ne_eq, reduceCtorEq, not_false_eq_true, true_iff]
      exact h
    · simp only [ne_eq, not_true_eq_false, false_iff]
      exact h
  · unfold tstats.Acquire
    simp only
    split_ifs with h
    · simp only [reduceCtorEq, false_iff]
      intro hlt
      rcases h with h | h | h | h
      · exact absurd hlt.1 (not_lt.mpr h)
      · exact absurd hlt.2.1 (not_lt.mpr h)
      · exact absurd hlt.2.2.1 (not_lt.mpr h)
      · exact absurd hlt.2.2.2 (not_lt.mpr h)
    · simp only [true_iff]
      simp only [not_or, not_le] at h
      exact h

/-- Claim C24 fails at equality: with the reading `(100, 0, 0, 0)` and the
thresholds `(100, 1, 1, 1)` no reading is strictly greater than its
threshold, and `Acquire` returns an error. -/
theorem tstats_Acquire_fails_at_threshold :
    (¬ (100 > 100) ∧ ¬ (0 > 1) ∧ ¬ ((0 : ℚ) > 1)) ∧
    ((NewThrottlerStats (Stats.mk (100, 0, 0, 0)) 100 1 1 1).Acquire Context.Background).1 ≠
      none := by
  refine ⟨⟨by decide, by decide, by norm_num⟩, ?_⟩
  simp [NewThrottlerStats, tstats.Acquire]

/-! ### `tenqueue` -/

theorem tenqueue_Acquire_present (thr : tenqueue.{u}) (ctx : Context) (M : Marshaler)
    (P : Payload) (hM : ctxMarshaler ctx = some M) (hP : ctxData ctx = some P) :
    thr.Acquire ctx =
      match (M P).2 with
      | some err => (some (GoError.Wrap "throttler can't enqueue %w" err), thr)
      | none =>
        match (thr.enq.Publish ctx (M P).1).1 with
        | some err =>
          (some (GoError.Wrap "throttler can't enqueue %w" err),
            { enq := (thr.enq.Publish ctx (M P).1).2 })
        | none => (none, { enq := (thr.enq.Publish ctx (M P).1).2 }) := by
  unfold tenqueue.Acquire
  rw [hM, hP]

theorem tenqueue_Acquire_absent (thr : tenqueue.{u}) (ctx : Context)
    (h : ctxMarshaler ctx = none ∨ ctxData ctx = none) :
    thr.Acquire ctx = (some (GoError.New "throttler can't find any data"), thr) := by
  unfold tenqueue.Acquire
  rcases h with h | h
  · rw [h]
  · rw [h]
    cases ctxMarshaler ctx <;> rfl

/-- Claim C25: `tenqueue.Acquire` returns nil exactly when the context carries
a marshaler `M` and a payload `P`, `M(P)` succeeds and `Publish` succeeds.
When `M(P)` succeeds the enqueuer afterwards is the enqueuer after exactly one
`Publish` of the bytes `M(P)`, and an error of `Publish` is returned wrapped.
When the marshaler or the payload is absent, or `M(P)` fails, the enqueuer is
untouched and an error is returned, the error of `M` wrapped. -/
theorem tenqueue_Acquire_publishes_once (thr : tenqueue.{u}) (ctx : Context) :
    ((thr.Acquire ctx).1 = none ↔
      ∃ M P, ctxMarshaler ctx = some M ∧ ctxData ctx = some P ∧ (M P).2 = none ∧
        (thr.enq.Publish ctx (M P).1).1 = none) ∧
    (∀ M P, ctxMarshaler ctx = some M → ctxData ctx = some P → (M P).2 = none →
      (thr.Acquire ctx).2.enq = (thr.enq.Publish ctx (M P).1).2 ∧
      (∀ err, (thr.enq.Publish ctx (M P).1).1 = some err →
        (thr.Acquire ctx).1 = some (GoError.Wrap "throttler can't enqueue %w" err))) ∧
    (ctxMarshaler ctx = none ∨ ctxData ctx = none →
      (thr.Acquire ctx).1 = some (GoError.New "throttler can't find any data") ∧
      (thr.Acquire ctx).2 = thr) ∧
    (∀ M P err, ctxMarshaler ctx = some M → ctxData ctx = some P → (M P).2 = some err →
      (thr.Acquire ctx).1 = some (GoError.Wrap "throttler can't enqueue %w" err) ∧
      (thr.Acquire ctx).2 = thr) := by
  refine ⟨?_, ?_, ?_, ?_⟩
  · constructor
    · intro hnil
      cases hM : ctxMarshaler ctx with
      | none =>
        rw [tenqueue_Acquire_absent thr ctx (Or.inl hM)] at hnil
        simp at hnil
      | some M =>
        cases hP : ctxData ctx with
        | none =>
          rw [tenqueue_Acquire_absent thr ctx (Or.inr hP)] at hnil
          simp at hnil
        | some P =>
          rw [tenqueue_Acquire_present thr ctx M P hM hP] at hnil
          refine ⟨M, P, rfl, rfl, ?_⟩
          cases hm : (M P).2 with
          | some err =>
            rw [hm] at hnil
            simp at hnil
          | none =>
            rw [hm] at hnil
            refine ⟨rfl, ?_⟩
            cases hp : (thr.enq.Publish ctx (M P).1).1 with
            | some err =>
              simp only [hp] at hnil
              simp at hnil
            | none => rfl
    · rintro ⟨M, P, hM, hP, hm, hp⟩
      rw [tenqueue_Acquire_present thr ctx M P hM hP, hm]
      simp only [hp]
  · intro M P hM hP hm
    rw [tenqueue_Acquire_present thr ctx M P hM hP, hm]
    constructor
    · cases hp : (thr.enq.Publish ctx (M P).1).1 <;> simp only [hp]
    · intro err hp
      simp only [hp]
  · intro h
    rw [tenqueue_Acquire_absent thr ctx h]
    exact ⟨rfl, rfl⟩
  · intro M P err hM hP hm
    rw [tenqueue_Acquire_present thr ctx M P hM hP, hm]
    exact ⟨rfl, rfl⟩

/-- Claim C25 on an enqueuer that records what it publishes: with the payload
`test` and a marshaler that returns the bytes `[116]`, `Acquire` returns nil
and the enqueuer holds exactly that one message. -/
theorem tenqueue_Acquire_publishes_once_witness :
    ((NewThrottlerEnqueue (Enqueuer.mk (List Bytes) []
        (fun log _ message => (none, log ++ [message])))).Acquire
      { Data := some "test", Marshaler := some (fun _ => ([116], none)) }).1 = none :=
  (tenqueue_Acquire_publishes_once
    (NewThrottlerEnqueue (Enqueuer.mk (List Bytes) []
      (fun log _ message => (none, log ++ [message]))))
    { Data := some "test", Marshaler := some (fun _ => ([116], none)) }).1.2
    ⟨fun _ => ([116], none), "test", rfl, rfl, rfl, rfl⟩

/-! ### `tkeyed` -/

theorem SyncMap_Load_set_self (m : SyncMap.{u}) (key : String) (value : Throttler.{u}) :
    SyncMap.Load (SyncMap.set m key value) key = some value := by
  induction m with
  | nil => simp [SyncMap.set, SyncMap.Load]
  | cons e rest ih =>
    by_cases h : e.1 = key
    · simp [SyncMap.set, SyncMap.Load, h]
    · simp [SyncMap.set, SyncMap.Load, h, ih]

theorem SyncMap_Load_set_ne (m : SyncMap.{u}) (key other : String) (value : Throttler.{u})
    (hne : other ≠ key) :
    SyncMap.Load (SyncMap.set m key value) other = SyncMap.Load m other := by
  induction m with
  | nil => simp [SyncMap.set, SyncMap.Load, Ne.symm hne]
  | cons e rest ih =>
    by_cases h : e.1 = key
    · have h2 : ¬ e.1 = other := fun h3 => hne (h3.symm.trans h)
      simp [SyncMap.set, SyncMap.Load, h, h2, Ne.symm hne]
    · by_cases h2 : e.1 = other
      · simp [SyncMap.set, SyncMap.Load, h2, hne]
      · simp [SyncMap.set, SyncMap.Load, h, h2, ih]

theorem SyncMap_Load_eq_none (m : SyncMap.{u}) (key : String) :
    SyncMap.Load m key = none ↔ key ∉ m.map Prod.fst := by
  induction m with
  | nil => simp [SyncMap.Load]
  | cons e rest ih =>
    by_cases h : e.1 = key
    · simp [SyncMap.Load, h]
    · simp only [SyncMap.Load, h, if_false, ih, List.map_cons, List.mem_cons, not_or]
      constructor
      · intro h2
        exact ⟨fun h3 => h h3.symm, h2⟩
      · intro h2
        exact h2.2

theorem SyncMap_keys_set (m : SyncMap.{u}) (key : String) (value : Throttler.{u}) :
    (SyncMap.set m key value).map Prod.fst =
      if key ∈ m.map Prod.fst then m.map Prod.fst else m.map Prod.fst ++ [key] := by
  induction m with
  | nil => simp [SyncMap.set]
  | cons e rest ih =>
    by_cases h : e.1 = key
    · simp [SyncMap.set, h]
    · have h2 : ¬ key = e.1 := fun h3 => h h3.symm
      simp only [SyncMap.set, h, if_false, List.map_cons, ih, List.mem_cons, h2, false_or]
      split_ifs <;> simp

/-- The keys of the store after `tkeyed.Acquire`: those before, with the key
of the context added at the end when it is new. -/
theorem tkeyed_Acquire_keys (thr : tkeyed.{u}) (ctx : Context) :
    (thr.Acquire ctx).2.store.map Prod.fst =
      match ctxKey ctx with
      | some key =>
        if key ∈ thr.store.map Prod.fst then thr.store.map Prod.fst
        else thr.store.map Prod.fst ++ [key]
      | none => thr.store.map Prod.fst := by
  unfold tkeyed.Acquire
  cases hk : ctxKey ctx with
  | none => rfl
  | some key =>
    simp only
    unfold SyncMap.LoadOrStore
    cases hl : SyncMap.Load thr.store key with
    | some r =>
      have hin : key ∈ thr.store.map Prod.fst := by
        by_contra hcon
        rw [(SyncMap_Load_eq_none thr.store key).mpr hcon] at hl
        exact Option.noConfusion hl
      simp only [SyncMap_keys_set, hin, if_true]
    | none =>
      have hnot : key ∉ thr.store.map Prod.fst := (SyncMap_Load_eq_none thr.store key).mp hl
      simp only [SyncMap_keys_set, hnot, if_false, List.mem_append, List.mem_singleton,
        or_true, if_true]

theorem tkeyed_Release_keys (thr : tkeyed.{u}) (ctx : Context) :
    (thr.Release ctx).2.store.map Prod.fst = thr.store.map Prod.fst := by
  unfold tkeyed.Release
  cases hk : ctxKey ctx with
  | none => rfl
  | some key =>
    simp only
    cases hl : SyncMap.Load thr.store key with
    | none => rfl
    | some r =>
      have hin : key ∈ thr.store.map Prod.fst := by
        by_contra hcon
        rw [(SyncMap_Load_eq_none thr.store key).mpr hcon] at hl
        exact Option.noConfusion hl
      simp only [SyncMap_keys_set, hin, if_true]

theorem tkeyed_step_nodup (thr : tkeyed.{u}) (call : tkeyed.Call)
    (h : (thr.store.map Prod.fst).Nodup) : ((thr.step call).store.map Prod.fst).Nodup := by
  cases call with
  | acquire ctx =>
    unfold tkeyed.step
    rw [tkeyed_Acquire_keys]
    cases ctxKey ctx with
    | none => exact h
    | some key =>
      simp only
      split_ifs with hin
      · exact h
      · rw [List.nodup_append]
        refine ⟨h, List.nodup_singleton key, ?_⟩
        intro a ha hb
        rw [List.mem_singleton] at hb
        exact hin (hb ▸ ha)
  | release ctx =>
    unfold tkeyed.step
    rw [tkeyed_Release_keys]
    exact h

theorem tkeyed_steps_nodup (calls : List tkeyed.Call) (thr : tkeyed.{u})
    (h : (thr.store.map Prod.fst).Nodup) : ((thr.steps calls).store.map Prod.fst).Nodup := by
  induction calls generalizing thr with
  | nil => exact h
  | cons call rest ih => exact ih (thr.step call) (tkeyed_step_nodup thr call h)

theorem tkeyed_Acquire_present (thr : tkeyed.{u}) (ctx : Context) (key : String)
    (X : Throttler.{u}) (hk : ctxKey ctx = some key) (hX : SyncMap.Load thr.store key = some X) :
    thr.Acquire ctx =
      ((X.Acquire ctx).1,
        { store := SyncMap.set thr.store key (X.Acquire ctx).2, newthr := thr.newthr.Call.2 }) := by
  unfold tkeyed.Acquire
  simp only [hk, SyncMap.LoadOrStore, hX]

theorem tkeyed_Acquire_absent (thr : tkeyed.{u}) (ctx : Context) (key : String)
    (hk : ctxKey ctx = some key) (hX : SyncMap.Load thr.store key = none) :
    thr.Acquire ctx =
      ((thr.newthr.Call.1.Acquire ctx).1,
        { store := SyncMap.set (SyncMap.set thr.store key thr.newthr.Call.1) key
            (thr.newthr.Call.1.Acquire ctx).2,
          newthr := thr.newthr.Call.2 }) := by
  unfold tkeyed.Acquire
  simp only [hk, SyncMap.LoadOrStore, hX]

theorem tkeyed_Release_present (thr : tkeyed.{u}) (ctx : Context) (key : String)
    (X : Throttler.{u}) (hk : ctxKey ctx = some key) (hX : SyncMap.Load thr.store key = some X) :
    thr.Release ctx =
      ((X.Release ctx).1, { thr with store := SyncMap.set thr.store key (X.Release ctx).2 }) := by
  unfold tkeyed.Release
  simp only [hk, hX]

theorem tkeyed_step_Load (thr : tkeyed.{u}) (call : tkeyed.Call) (key : String)
    (X : Throttler.{u}) (hX : SyncMap.Load thr.store key = some X) :
    SyncMap.Load (thr.step call).store key =
      some (if ctxKey call.ctx = some key then call.apply X else X) := by
  cases call with
  | acquire ctx =>
    simp only [tkeyed.step, tkeyed.Call.ctx, tkeyed.Call.apply]
    cases hk : ctxKey ctx with
    | none =>
      have : thr.Acquire ctx = (some (GoError.New "throttler can't find any key"), thr) := by
        unfold tkeyed.Acquire
        rw [hk]
      rw [this, if_neg (by simp)]
      exact hX
    | some k =>
      by_cases hkk : k = key
      · subst hkk
        rw [tkeyed_Acquire_present thr ctx k X hk hX, if_pos rfl]
        exact SyncMap_Load_set_self _ _ _
      · rw [if_neg (by simpa using hkk)]
        cases hl : SyncMap.Load thr.store k with
        | some r =>
          rw [tkeyed_Acquire_present thr ctx k r hk hl]
          simp only
          rw [SyncMap_Load_set_ne _ _ _ _ (Ne.symm hkk)]
          exact hX
        | none =>
          rw [tkeyed_Acquire_absent thr ctx k hk hl]
          simp only
          rw [SyncMap_Load_set_ne _ _ _ _ (Ne.symm hkk),
            SyncMap_Load_set_ne _ _ _ _ (Ne.symm hkk)]
          exact hX
  | release ctx =>
    simp only [tkeyed.step, tkeyed.Call.ctx, tkeyed.Call.apply]
    cases hk : ctxKey ctx with
    | none =>
      have : thr.Release ctx = (some (GoError.New "throttler can't find any key"), thr) := by
        unfold tkeyed.Release
        rw [hk]
      rw [this, if_neg (by simp)]
      exact hX
    | some k =>
      by_cases hkk : k = key
      · subst hkk
        rw [tkeyed_Release_present thr ctx k X hk hX, if_pos rfl]
        exact SyncMap_Load_set_self _ _ _
      · rw [if_neg (by simpa using hkk)]
        cases hl : SyncMap.Load thr.store k with
        | some r =>
          rw [tkeyed_Release_present thr ctx k r hk hl]
          simp only
          rw [SyncMap_Load_set_ne _ _ _ _ (Ne.symm hkk)]
          exact hX
        | none =>
          have : thr.Release ctx =
              (some (GoError.New "throttler has nothing to release"), thr) := by
            unfold tkeyed.Release
            simp only [hk, hl]
          rw [this]
          exact hX

/-- Claim C26: after every sequence of `Acquire` and `Release` calls on a
`NewThrottlerKeyed` the store has at most one entry for each key; a call
never removes an entry and never replaces its throttler: the entry of the
key of the call is the stored throttler after that very call, whose verdict
is returned, and every other entry is untouched; the first `Acquire` for a
key stores the product of the factory, after its `Acquire`. -/
theorem tkeyed_store_entries_stable :
    (∀ (newthr : NewThrottler.{u}) (calls : List tkeyed.Call),
      (((NewThrottlerKeyed newthr).steps calls).store.map Prod.fst).Nodup) ∧
    (∀ (thr : tkeyed.{u}) (call : tkeyed.Call) (key : String) (X : Throttler.{u}),
      SyncMap.Load thr.store key = some X →
      SyncMap.Load (thr.step call).store key =
        some (if ctxKey call.ctx = some key then call.apply X else X)) ∧
    (∀ (thr : tkeyed.{u}) (ctx : Context) (key : String) (X : Throttler.{u}),
      ctxKey ctx = some key → SyncMap.Load thr.store key = some X →
      (thr.Acquire ctx).1 = (X.Acquire ctx).1 ∧ (thr.Release ctx).1 = (X.Release ctx).1) ∧
    (∀ (thr : tkeyed.{u}) (ctx : Context) (key : String),
      ctxKey ctx = some key → SyncMap.Load thr.store key = none →
      (thr.Acquire ctx).1 = (thr.newthr.Call.1.Acquire ctx).1 ∧
      SyncMap.Load (thr.Acquire ctx).2.store key = some (thr.newthr.Call.1.Acquire ctx).2) := by
  refine ⟨fun newthr calls => ?_, tkeyed_step_Load, fun thr ctx key X hk hX => ?_,
    fun thr ctx key hk hX => ?_⟩
  · exact tkeyed_steps_nodup calls (NewThrottlerKeyed newthr) List.nodup_nil
  · rw [tkeyed_Acquire_present thr ctx key X hk hX, tkeyed_Release_present thr ctx key X hk hX]
    exact ⟨rfl, rfl⟩
  · rw [tkeyed_Acquire_absent thr ctx key hk hX]
    exact ⟨rfl, SyncMap_Load_set_self _ _ _⟩

/-- Claim C26 on a store with the entry `a`: an `Acquire` for the key `b`
leaves the entry of `a` as it is. -/
theorem tkeyed_store_entries_stable_witness :
    SyncMap.Load ((tkeyed.mk [("a", (NewThrottlerEach 3).asThrottler)]
        NewThrottler.numbered).step (tkeyed.Call.acquire { Key := some "b" })).store "a" =
      some (if ctxKey (tkeyed.Call.acquire { Key := some "b" }).ctx = some "a" then
        (tkeyed.Call.acquire { Key := some "b" }).apply (NewThrottlerEach 3).asThrottler
        else (NewThrottlerEach 3).asThrottler) :=
  tkeyed_store_entries_stable.2.1
    (tkeyed.mk [("a", (NewThrottlerEach 3).asThrottler)] NewThrottler.numbered)
    (tkeyed.Call.acquire { Key := some "b" }) "a" (NewThrottlerEach 3).asThrottler rfl

/-- Claim C27: on a context without a key `tkeyed.Acquire` and
`tkeyed.Release` return an error and leave the receiver, store and factory,
as it was; `Release` with a key that has no entry returns an error and leaves
the receiver as it was, so it creates no entry. -/
theorem tkeyed_missing_key_errors :
    (∀ (thr : tkeyed.{u}) (ctx : Context), ctxKey ctx = none →
      thr.Acquire ctx = (some (GoError.New "throttler can't find any key"), thr) ∧
      thr.Release ctx = (some (GoError.New "throttler can't find any key"), thr)) ∧
    (∀ (thr : tkeyed.{u}) (ctx : Context) (key : String),
      ctxKey ctx = some key → SyncMap.Load thr.store key = none →
      thr.Release ctx = (some (GoError.New "throttler has nothing to release"), thr) ∧
      SyncMap.Load (thr.Release ctx).2.store key = none) := by
  refine ⟨fun thr ctx hk => ⟨?_, ?_⟩, fun thr ctx key hk hl => ?_⟩
  · unfold tkeyed.Acquire
    rw [hk]
  · unfold tkeyed.Release
    rw [hk]
  · have h : thr.Release ctx =
        (some (GoError.New "throttler has nothing to release"), thr) := by
      unfold tkeyed.Release
      simp only [hk, hl]
    rw [h]
    exact ⟨rfl, hl⟩

/-- Claim C27 on a fresh keyed throttler: `Release` for the key `a`, never
acquired, returns the error and stores nothing. -/
theorem tkeyed_missing_key_errors_witness :
    ctxKey { Key := some "a" } = some "a" ∧
    SyncMap.Load (NewThrottlerKeyed NewThrottler.numbered).store "a" = none ∧
    ((NewThrottlerKeyed NewThrottler.numbered).Release { Key := some "a" }).1 =
      some (GoError.New "throttler has nothing to release") ∧
    ((NewThrottlerKeyed NewThrottler.numbered).Release { Key := some "a" }).2.store.length = 0 :=
  ⟨rfl, rfl,
    congrArg Prod.fst (tkeyed_missing_key_errors.2 (NewThrottlerKeyed NewThrottler.numbered)
      { Key := some "a" } "a" rfl rfl).1,
    rfl⟩

theorem tkeyed_Acquire_newthr (thr : tkeyed.{u}) (ctx : Context) :
    (thr.Acquire ctx).2.newthr =
      match ctxKey ctx with
      | some _ => thr.newthr.Call.2
      | none => thr.newthr := by
  unfold tkeyed.Acquire
  cases ctxKey ctx <;> rfl

theorem tkeyed_AcquireAll_newthr (ctxs : List Context) (thr : tkeyed.{u}) :
    (tkeyed.AcquireAll ctxs thr).2.newthr =
      NewThrottler.CallN (keysOf ctxs).length thr.newthr := by
  induction ctxs generalizing thr with
  | nil => rfl
  | cons ctx rest ih =>
    simp only [tkeyed.AcquireAll, ih, tkeyed_Acquire_newthr]
    cases hk : ctxKey ctx with
    | none => simp [keysOf, hk]
    | some key => simp [keysOf, hk, NewThrottler.CallN]

theorem tkeyed_AcquireAll_keys (ctxs : List Context) (thr : tkeyed.{u})
    (h : (thr.store.map Prod.fst).Nodup) :
    ((tkeyed.AcquireAll ctxs thr).2.store.map Prod.fst).Nodup ∧
    ∀ key, key ∈ (tkeyed.AcquireAll ctxs thr).2.store.map Prod.fst ↔
      key ∈ thr.store.map Prod.fst ∨ key ∈ keysOf ctxs := by
  induction ctxs generalizing thr with
  | nil => exact ⟨h, fun key => by simp [tkeyed.AcquireAll, keysOf]⟩
  | cons ctx rest ih =>
    have hstep := tkeyed_step_nodup thr (tkeyed.Call.acquire ctx) h
    have hrec := ih (thr.Acquire ctx).2 hstep
    refine ⟨hrec.1, fun key => ?_⟩
    have hmem := hrec.2 key
    simp only [tkeyed.AcquireAll]
    rw [hmem, tkeyed_Acquire_keys]
    cases hk : ctxKey ctx with
    | none => simp [keysOf, hk]
    | some k =>
      simp only [keysOf, List.filterMap_cons, hk, List.mem_cons]
      split_ifs with hin
      · constructor
        · rintro (h1 | h1)
          · exact Or.inl h1
          · exact Or.inr (Or.inr h1)
        · rintro (h1 | h1 | h1)
          · exact Or.inl h1
          · exact Or.inl (h1 ▸ hin)
          · exact Or.inr h1
      · simp only [List.mem_append, List.mem_singleton]
        tauto

/-- Claim C29, as the code has it: `tkeyed.Acquire` calls the factory once on
every call whose context carries a key, whether the key has an entry or not
(and not at all without a key), while the store gets a new entry only for a
key that has none.  So after a sequence of `Acquire` calls on a fresh keyed
throttler the factory has been called once for each call that carried a key,
and the number of stored throttlers is the number of distinct keys seen. -/
theorem tkeyed_Acquire_calls_factory_each_time :
    (∀ (thr : tkeyed.{u}) (ctx : Context) (key : String), ctxKey ctx = some key →
      (thr.Acquire ctx).2.newthr = thr.newthr.Call.2 ∧
      (∀ X, SyncMap.Load thr.store key = some X →
        (thr.Acquire ctx).2.store.map Prod.fst = thr.store.map Prod.fst)) ∧
    (∀ (thr : tkeyed.{u}) (ctx : Context), ctxKey ctx = none →
      (thr.Acquire ctx).2.newthr = thr.newthr) ∧
    (∀ (newthr : NewThrottler.{u}) (ctxs : List Context),
      (tkeyed.AcquireAll ctxs (NewThrottlerKeyed newthr)).2.newthr =
        NewThrottler.CallN (keysOf ctxs).length newthr ∧
      (tkeyed.AcquireAll ctxs (NewThrottlerKeyed newthr)).2.store.length =
        (keysOf ctxs).dedup.length) := by
  refine ⟨fun thr ctx key hk => ⟨?_, fun X hX => ?_⟩, fun thr ctx hk => ?_,
    fun newthr ctxs => ⟨?_, ?_⟩⟩
  · rw [tkeyed_Acquire_newthr, hk]
  · rw [tkeyed_Acquire_keys, hk]
    have hin : key ∈ thr.store.map Prod.fst := by
      by_contra hcon
      rw [(SyncMap_Load_eq_none thr.store key).mpr hcon] at hX
      exact Option.noConfusion hX
    simp only [hin, if_true]
  · rw [tkeyed_Acquire_newthr, hk]
  · exact tkeyed_AcquireAll_newthr ctxs (NewThrottlerKeyed newthr)
  · have hk := tkeyed_AcquireAll_keys ctxs (NewThrottlerKeyed newthr) List.nodup_nil
    have hset : ((tkeyed.AcquireAll ctxs (NewThrottlerKeyed newthr)).2.store.map
        Prod.fst).toFinset = (keysOf ctxs).toFinset := by
      ext key
      rw [List.mem_toFinset, List.mem_toFinset, hk.2 key]
      simp [NewThrottlerKeyed]
    have hlen := List.toFinset_card_of_nodup hk.1
    rw [hset, List.card_toFinset, List.length_map] at hlen
    exact hlen.symm

/-- Claim C29 on the contexts with the keys `a`, `a`, `b`: the factory is left
after three calls and two throttlers are stored. -/
theorem tkeyed_Acquire_calls_factory_each_time_witness :
    (tkeyed.AcquireAll [{ Key := some "a" }, { Key := some "a" }, { Key := some "b" }]
        (NewThrottlerKeyed NewThrottler.numbered)).2.newthr =
      NewThrottler.CallN 3 NewThrottler.numbered ∧
    (tkeyed.AcquireAll [{ Key := some "a" }, { Key := some "a" }, { Key := some "b" }]
        (NewThrottlerKeyed NewThrottler.numbered)).2.store.length = 2 :=
  ⟨(tkeyed_Acquire_calls_factory_each_time.2.2 NewThrottler.numbered
      [{ Key := some "a" }, { Key := some "a" }, { Key := some "b" }]).1,
    rfl⟩

/-- Claim C29 fails: with a factory that numbers its products, `Acquire`
calls for the keys `a`, `a`, `b` return the errors of the products 0, 0 and
2: the second call, for a key already present, has called the factory and
dropped product 1, so the factory was called three times for two distinct
keys. -/
theorem tkeyed_factory_called_for_present_key :
    (tkeyed.AcquireAll [{ Key := some "a" }, { Key := some "a" }, { Key := some "b" }]
        (NewThrottlerKeyed NewThrottler.numbered)).1 =
      [some (GoError.Errorf "product %d" 0), some (GoError.Errorf "product %d" 0),
       some (GoError.Errorf "product %d" 2)] ∧
    (tkeyed.AcquireAll [{ Key := some "a" }, { Key := some "a" }, { Key := some "b" }]
        (NewThrottlerKeyed NewThrottler.numbered)).2.store.map Prod.fst = ["a", "b"] ∧
    (keysOf [{ Key := some "a" }, { Key := some "a" }, { Key := some "b" }]).dedup.length = 2 ∧
    (tkeyed.AcquireAll [{ Key := some "a" }, { Key := some "a" }, { Key := some "b" }]
        (NewThrottlerKeyed NewThrottler.numbered)).2.newthr ≠
      NewThrottler.CallN 2 NewThrottler.numbered := by
  refine ⟨by decide, by decide, by decide, fun h => ?_⟩
  exact absurd (congrArg (fun f => (f.Call.1.Acquire Context.Background).1) h) (by decide)

/-! ### Call order of `tall` and the sample of `tlatency` -/

theorem tall_Acquire_loop_first_nil (ctx : Context) (pre post : List Throttler.{u})
    (thr : Throttler.{u}) (err : GoError)
    (hpre : ∀ t ∈ pre, (t.Acquire ctx).1 ≠ none) (hthr : (thr.Acquire ctx).1 = none) :
    tall.Acquire.loop ctx (pre ++ thr :: post) err =
      (none, pre.map (fun t => (t.Acquire ctx).2) ++ (thr.Acquire ctx).2 :: post) := by
  induction pre generalizing err with
  | nil => simp [tall.Acquire.loop, hthr]
  | cons t rest ih =>
    have ht : (t.Acquire ctx).1 ≠ none := hpre t (List.mem_cons_self _ _)
    have hrest : ∀ s ∈ rest, (s.Acquire ctx).1 ≠ none :=
      fun s hs => hpre s (List.mem_cons_of_mem _ hs)
    cases he : (t.Acquire ctx).1 with
    | none => exact absurd he ht
    | some threrr =>
      have hq := ih (GoError.Wrap2 "%w %w" err threrr) hrest
      simp only [List.cons_append, tall.Acquire.loop, he, List.map_cons, List.append_eq]
      rw [hq]

theorem tall_Acquire_loop_all_fail (ctx : Context) (thrs : List Throttler.{u}) (err : GoError)
    (hall : ∀ t ∈ thrs, (t.Acquire ctx).1 ≠ none) :
    tall.Acquire.loop ctx thrs err =
      (some ((thrs.filterMap (fun t => (t.Acquire ctx).1)).foldl
          (fun agg threrr => GoError.Wrap2 "%w %w" agg threrr) err),
        thrs.map (fun t => (t.Acquire ctx).2)) := by
  induction thrs generalizing err with
  | nil => rfl
  | cons t rest ih =>
    have ht : (t.Acquire ctx).1 ≠ none := hall t (List.mem_cons_self _ _)
    have hrest : ∀ s ∈ rest, (s.Acquire ctx).1 ≠ none :=
      fun s hs => hall s (List.mem_cons_of_mem _ hs)
    cases he : (t.Acquire ctx).1 with
    | none => exact absurd he ht
    | some threrr =>
      have hq := ih (GoError.Wrap2 "%w %w" err threrr) hrest
      simp only [tall.Acquire.loop, he, List.map_cons, List.filterMap_cons, List.foldl_cons]
      rw [hq]

/-- Claim C28: `tall.Acquire` goes through its children in list order and
stops at the first one that returns nil: every child before it and that child
itself are left as after exactly one `Acquire`, and the children after it are
untouched; when no child returns nil every child is left as after exactly one
`Acquire` and the error returned wraps their errors in list order. -/
theorem tall_Acquire_short_circuits :
    (∀ (pre post : List Throttler.{u}) (thr : Throttler.{u}) (ctx : Context),
      (∀ t ∈ pre, (t.Acquire ctx).1 ≠ none) → (thr.Acquire ctx).1 = none →
      tall.Acquire (NewThrottlerAll (pre ++ thr :: post)) ctx =
        (none, pre.map (fun t => (t.Acquire ctx).2) ++ (thr.Acquire ctx).2 :: post)) ∧
    (∀ (thrs : List Throttler.{u}) (ctx : Context),
      (∀ t ∈ thrs, (t.Acquire ctx).1 ≠ none) →
      tall.Acquire (NewThrottlerAll thrs) ctx =
        (some ((thrs.filterMap (fun t => (t.Acquire ctx).1)).foldl
            (fun agg threrr => GoError.Wrap2 "%w %w" agg threrr)
            (GoError.New "throttler error has happened")),
          thrs.map (fun t => (t.Acquire ctx).2))) :=
  ⟨fun pre post thr ctx hpre hthr =>
      tall_Acquire_loop_first_nil ctx pre post thr _ hpre hthr,
    fun thrs ctx hall => tall_Acquire_loop_all_fail ctx thrs _ hall⟩

/-- Claim C28 on `All([After(2), Each(3), After(5)])`, all fresh: the first
child fails and the second passes, both have counted one call, and the third
is still fresh. -/
theorem tall_Acquire_short_circuits_witness :
    tall.Acquire (NewThrottlerAll ([(NewThrottlerAfter 2).asThrottler] ++
        (NewThrottlerEach 3).asThrottler :: [(NewThrottlerAfter 5).asThrottler]))
        Context.Background =
      (none, [(tafter.mk 1 2).asThrottler, (teach.mk 1 3).asThrottler,
        (NewThrottlerAfter 5).asThrottler]) :=
  tall_Acquire_short_circuits.1 [(NewThrottlerAfter 2).asThrottler]
    [(NewThrottlerAfter 5).asThrottler] (NewThrottlerEach 3).asThrottler Context.Background
    (by
      intro t ht
      rw [List.mem_singleton] at ht
      subst ht
      decide)
    (by decide)

/-- Claim C30: `tlatency.Release` returns nil; when the stored sample is not
below `max` it leaves the receiver as it was and schedules no reset; when the
stored sample is below `max` the new stored sample is the maximum of the
stored sample and the sample observed by this call.  `tlatency.Acquire` leaves
the receiver as it was and fails exactly when the stored sample is strictly
greater than `max`. -/
theorem tlatency_Release_keeps_maximum (thr : tlatency) (ctx : Context) (now : Int) :
    (thr.Release ctx now).1 = none ∧
    (¬ thr.lat < thr.max →
      (thr.Release ctx now).2.1 = thr ∧ (thr.Release ctx now).2.2 = false) ∧
    (thr.lat < thr.max →
      (thr.Release ctx now).2.1 =
        { thr with lat := max thr.lat (tlatency.Release.lat ctx now) } ∧
      (thr.Release ctx now).2.2 = true) ∧
    (thr.Acquire ctx).2 = thr ∧
    ((thr.Acquire ctx).1 ≠ none ↔ thr.lat > thr.max) := by
  refine ⟨?_, fun h => ?_, fun h => ?_, ?_, ?_⟩
  · unfold tlatency.Release
    split_ifs <;> rfl
  · unfold tlatency.Release
    rw [if_neg h]
    exact ⟨rfl, rfl⟩
  · unfold tlatency.Release
    rw [if_pos h]
    refine ⟨?_, rfl⟩
    simp only
    split_ifs with hgt
    · rw [max_eq_right (le_of_lt hgt)]
    · rw [max_eq_left (not_lt.mp hgt)]
  · unfold tlatency.Acquire
    split_ifs <;> rfl
  · unfold tlatency.Acquire
    split_ifs with hgt
    · simp only [ne_eq, reduceCtorEq, not_false_eq_true, true_iff]
      exact hgt
    · simp only [ne_eq, not_true_eq_false, false_iff]
      exact hgt

/-- Claim C30 on a `tlatency` with stored sample 3 and `max = 10`: a
`Release` that observes 7 stores 7, and one at stored sample 10 stores
nothing. -/
theorem tlatency_Release_keeps_maximum_witness :
    ((tlatency.mk 3 10 0).Release { Timestamp := some 8 } 1).2.1 = tlatency.mk 7 10 0 ∧
    ((tlatency.mk 10 10 0).Release { Timestamp := some 8 } 1).2 = (tlatency.mk 10 10 0, false) :=
  ⟨((tlatency_Release_keeps_maximum (tlatency.mk 3 10 0) { Timestamp := some 8 } 1).2.2.1
      (by decide)).1.trans (by decide),
    Prod.ext
      ((tlatency_Release_keeps_maximum (tlatency.mk 10 10 0) { Timestamp := some 8 } 1).2.1
        (by decide)).1
      ((tlatency_Release_keeps_maximum (tlatency.mk 10 10 0) { Timestamp := some 8 } 1).2.1
        (by decide)).2⟩

end Gohalt
